import Mathlib

/-!
# Mesh adaptation control of Cello (`src/Cello/control_adapt.cpp`)

A shallow embedding of the adapt phase of a `Block` of the forest of octrees:
the desired-level computation, the level negotiation handler
`p_adapt_recv_level`, the fan-out `adapt_send_level`, the phase steps
`adapt_begin_` / `adapt_next_` / `adapt_end_` and the refine and coarsen
executors (`adapt_refine_`, `adapt_coarsen_`, `p_adapt_recv_child`), and of
the control flow of `EnzoMethodComovingExpansion`
(`src/Enzo/enzo_EnzoMethodComovingExpansion.cpp`), followed by theorems about
them.

Conventions of the embedding.

* C++ `int` is `Int`; `int[3]` is `Int3`.  Signed overflow is undefined in C++
  and is not modelled in the additions and subtractions on levels; the
  remainder of `do_adapt_`, the one operation that traps, has no value at
  `INT_MIN % -1`.
* A member function becomes a function of the block state that returns the
  new state together with the list of `Event`s it emitted (messages, calls of
  other steps, warnings, fatal errors), in program order.
* Classes and helpers that the file uses but does not define (`Index`, the
  iterators, `neighbor_`, the face-level accessors) are either parameters
  (`Topology`) or modelled from the specification, and say so.
-/

namespace Cello

/-- Value of a C++ `int[3]`. -/
abbrev Int3 : Type := Int × Int × Int

/-- Componentwise negation, as in `{-if3[0],-if3[1],-if3[2]}`. -/
def neg3 (f : Int3) : Int3 := (-f.1, -f.2.1, -f.2.2)

/-- Modelled from the spec: the class `Index` is not in the sources.  An index
encodes the root tree id and one child selector per level above the root
(spec §3); `path` lists the selectors from level 1 down to the node. -/
structure Index where
  tree : Nat
  path : List Int3
deriving DecidableEq, Repr

/-- Modelled from the spec: `Index::level()`, the depth of the node (0 at a root). -/
def Index.level (i : Index) : Int := (i.path.length : Int)

/-- Modelled from the spec: `Index::index_parent()`, the index without its last
child selector. -/
def Index.index_parent (i : Index) : Index := { i with path := i.path.dropLast }

/-- Modelled from the spec: `Index::index_child(ic3)`, with
`index_child(ic).index_parent() == self`. -/
def Index.index_child (i : Index) (ic3 : Int3) : Index := { i with path := i.path ++ [ic3] }

/-- Modelled from the spec: `Index::child(level,&icx,&icy,&icz)`, the child
selector of the node at the given level (the block's key within its parent
when `level` is the block's own level). -/
def Index.child (i : Index) (level : Int) : Int3 := i.path.getD (level.toNat - 1) (0, 0, 0)

/-- Modelled from the spec: the enum `adapt_type` is not in the sources; the
spec orders it `unknown < same < coarsen < refine`. -/
def adapt_unknown : Int := 0

/-- Modelled from the spec: see `adapt_unknown`. -/
def adapt_same : Int := 1

/-- Modelled from the spec: see `adapt_unknown`. -/
def adapt_coarsen : Int := 2

/-- Modelled from the spec: see `adapt_unknown`. -/
def adapt_refine : Int := 3

/-- The entries of `simulation()->config()` read by the adapt phase. -/
structure Config where
  mesh_max_level : Int
  initial_cycle : Int
  mesh_adapt_interval : Int
deriving DecidableEq, Repr

/-- The counter `sync_coarsen_` (class `Sync`, not in the sources). -/
structure Sync where
  stop : Int := 0
  count : Int := 0
deriving DecidableEq, Repr

/-- The state of a `Block` that the adapt phase reads or writes.

Modelled from the spec: the vectors `face_level_*_` and `child_face_level_*_`
are indexed through the macros `IF3` and `ICF3`, which are not in the sources;
they are the spec's maps keyed by a face `f`, respectively by a pair
`(child key, face)`.  `time_` and `dt_` are only ever copied. -/
structure Block where
  index_ : Index
  rank : Int := 3
  is_leaf_ : Bool := true
  delete_ : Bool := false
  age_ : Int := 0
  level_next_ : Int := 0
  adapt_step_ : Int := 0
  adapt_ : Int := 0
  cycle_ : Int := 0
  time_ : Rat := 0
  dt_ : Rat := 0
  children_ : List Index := []
  face_level_curr_ : Int3 → Int := fun _ => 0
  face_level_next_ : Int3 → Int := fun _ => 0
  face_level_last_ : Int3 × Int3 → Int := fun _ => 0
  child_face_level_curr_ : Int3 × Int3 → Int := fun _ => 0
  child_face_level_next_ : Int3 × Int3 → Int := fun _ => 0
  sync_coarsen_ : Sync := {}

/-- The accessor `Block::level()`: the level of the block's index. -/
def Block.level (b : Block) : Int := b.index_.level

/-- The accessor `Block::is_leaf()`. -/
def Block.is_leaf (b : Block) : Bool := b.is_leaf_

/-- The accessor `Block::cycle()`. -/
def Block.cycle (b : Block) : Int := b.cycle_

/-- Modelled from the spec: `Block::face_level(if3)` reads the current level
across a face. -/
def Block.face_level (b : Block) (if3 : Int3) : Int := b.face_level_curr_ if3

/-- Modelled from the spec: `Block::set_face_level_next(if3,level)`. -/
def Block.set_face_level_next (b : Block) (if3 : Int3) (level : Int) : Block :=
  { b with face_level_next_ := fun k => if k = if3 then level else b.face_level_next_ k }

/-- Modelled from the spec: `Block::set_child_face_level_next(ic3,if3,level)`. -/
def Block.set_child_face_level_next (b : Block) (ic3 if3 : Int3) (level : Int) : Block :=
  { b with child_face_level_next_ :=
      fun k => if k = (ic3, if3) then level else b.child_face_level_next_ k }

/-- Modelled from the spec: `Block::is_child_(index)`, membership in `children_`. -/
def Block.is_child_ (b : Block) (index : Index) : Bool := decide (index ∈ b.children_)

/-- Modelled from the spec: `Block::update_levels_()` commits the negotiated
levels, `face_level_curr ← face_level_next` and
`child_face_level_curr ← child_face_level_next` (spec §4.1). -/
def Block.update_levels_ (b : Block) : Block :=
  { b with face_level_curr_ := b.face_level_next_,
           child_face_level_curr_ := b.child_face_level_next_ }

/-- The geometric helpers the adapt phase calls but the sources do not define,
taken as parameters: the iterators `ItChild(rank[,if3])`,
`it_face(min_face_rank,index[,ic3,if3])`, `it_neighbor(min_face_rank,index)`
as the lists they enumerate, and `neighbor_(of3[,&index])`. -/
structure Topology where
  ItChild : Int → Option Int3 → List Int3
  it_face : Int → Index → Option Int3 → Option Int3 → List Int3
  it_neighbor : Int → Index → List Int3
  neighbor_ : Index → Int3 → Index

/-- The arguments of the entry method `p_adapt_recv_level`. -/
structure Msg where
  index_send : Index
  ic3 : Int3
  if3 : Int3
  level_face_curr : Int
  level_face_new : Int
deriving DecidableEq, Repr

/-- The phases named in `control_sync`. -/
inductive Phase where
  | phase_adapt_called
  | phase_adapt_next
  | phase_adapt_end
  | phase_adapt_enter
  | phase_adapt_exit
deriving DecidableEq, Repr

/-- The synchronisation kinds passed to `control_sync`. -/
inductive SyncKind where
  | neighbor
  | quiescence
deriving DecidableEq, Repr

/-- What a step of the adapt phase does besides changing the block. -/
inductive Event where
  /-- The `PUT_LEVEL` message: the entry `p_adapt_recv_level` invoked on block `recv`. -/
  | put_level (recv : Index) (m : Msg)
  /-- A call of `adapt_send_level()`; its messages follow. -/
  | call_adapt_send_level
  /-- A call of `adapt_refine_()`. -/
  | call_adapt_refine
  /-- A call of `adapt_coarsen_()`. -/
  | call_adapt_coarsen
  /-- The `factory->create_block` call of `adapt_refine_`. -/
  | create_block (index_child : Index) (adapt_step cycle : Int) (time dt : Rat)
      (face_level : Int3 → Int)
  /-- The `p_adapt_recv_child` message of `adapt_coarsen_` to the parent. -/
  | put_child (index_parent : Index) (ic3 : Int3) (face_level_curr : Int3 → Int)
  /-- The `control_sync` call that ends a step. -/
  | control_sync (phase : Phase) (sync : SyncKind)
  /-- The diagnostic print for `index_send.level() != level_face_curr`. -/
  | level_mismatch (level_send level_face_curr : Int)
  /-- The warning "level and face level differ by more than 1". -/
  | warning_level_jump (level level_face : Int)
  /-- The fatal `ERROR1` "Recurse should not be called". -/
  | error_recurse
  /-- A failed `ASSERT2` on `level_next > level_next_`. -/
  | assert_level_next (level_next level_next_ : Int)
  /-- The `p_adapt_delete` message of `adapt_delete_child_` to a child. -/
  | put_delete (index_child : Index)
  /-- The call `thisProxy.doneInserting()` of `adapt_end_`. -/
  | done_inserting
  /-- The call `ckDestroy()` of `adapt_end_`. -/
  | destroy

/-- Whether an event is a `PUT_LEVEL` message. -/
def Event.isPutLevel : Event → Bool
  | .put_level _ _ => true
  | _ => false

/-- Whether an event is a call of `adapt_send_level`. -/
def Event.isSendLevelCall : Event → Bool
  | .call_adapt_send_level => true
  | _ => false

/-- Whether an event is a call of `adapt_coarsen_`. -/
def Event.isCoarsenCall : Event → Bool
  | .call_adapt_coarsen => true
  | _ => false

/-- Whether an event is a call of `adapt_refine_`. -/
def Event.isRefineCall : Event → Bool
  | .call_adapt_refine => true
  | _ => false

/-- Whether an event is a failed `ASSERT2`. -/
def Event.isAssertFailure : Event → Bool
  | .assert_level_next _ _ => true
  | _ => false

/-- The method `Block::parent_face_(ip3,if3,ic3)`: the written `ip3` and the returned flag. -/
def parent_face_ (if3 ic3 : Int3) : Int3 × Bool :=
  let ip0 := if3.1
  let ip1 := if3.2.1
  let ip2 := if3.2.2
  let ip0 := if if3.1 = 1 ∧ ic3.1 = 0 then 0 else ip0
  let ip1 := if if3.2.1 = 1 ∧ ic3.2.1 = 0 then 0 else ip1
  let ip2 := if if3.2.2 = 1 ∧ ic3.2.2 = 0 then 0 else ip2
  let ip0 := if if3.1 = -1 ∧ ic3.1 = 1 then 0 else ip0
  let ip1 := if if3.2.1 = -1 ∧ ic3.2.1 = 1 then 0 else ip1
  let ip2 := if if3.2.2 = -1 ∧ ic3.2.2 = 1 then 0 else ip2
  ((ip0, ip1, ip2), decide (if3.1 ≠ 0 ∨ if3.2.1 ≠ 0 ∨ if3.2.2 ≠ 0))

/-- The least value of the 32-bit type `int`. -/
def INT_MIN : Int := -2147483648

/-- The remainder `a % b` of C++ on `int`: undefined (`none`) for `b = 0` and
for `INT_MIN % -1`, whose quotient overflows; truncated otherwise. -/
def c_rem (a b : Int) : Option Int :=
  if b = 0 then none
  else if a = INT_MIN ∧ b = -1 then none
  else some (Int.tmod a b)

/-- The method `Block::do_adapt_()`: `adapt_interval && ((cycle_ % adapt_interval) == 0)`.
The right operand of `&&` is evaluated only when the left one is nonzero;
`none` is an undefined remainder (see `c_rem`). -/
def do_adapt_ (cfg : Config) (b : Block) : Option Bool :=
  let adapt_interval := cfg.mesh_adapt_interval
  if adapt_interval ≠ 0 then (c_rem b.cycle_ adapt_interval).map (fun r => decide (r = 0))
  else some false

/-- The method `Block::adapt_compute_desired_level_(level_maximum)`.  `criteria` lists the
values `refine->apply(this, field_descr)` of the problem's refinement criteria,
in the order of the `while` loop.  Returns the desired level and the block
(whose `adapt_` the function assigns). -/
def adapt_compute_desired_level_ (cfg : Config) (criteria : List Int) (b : Block)
    (level_maximum : Int) : Int × Block :=
  if ! b.is_leaf then (adapt_same, b) else
  let adapt := criteria.foldl (fun adapt r => max adapt r) adapt_unknown
  let level := b.level
  let initial_cycle := cfg.initial_cycle
  let is_first_cycle : Bool := decide (initial_cycle = b.cycle)
  if adapt = adapt_coarsen ∧ level > 0 ∧ is_first_cycle = false then
    (level - 1, { b with adapt_ := adapt })
  else if adapt = adapt_refine ∧ level < level_maximum then
    (level + 1, { b with adapt_ := adapt })
  else
    (level, { b with adapt_ := adapt_same })

/-- The method `Block::adapt_begin_()`: sets `level_next_` to the desired level, then
synchronises with the neighbours.  (`set_phase` acts on the simulation object,
which is not part of the block.) -/
def adapt_begin_ (cfg : Config) (criteria : List Int) (b : Block) : Block × List Event :=
  let level_maximum := cfg.mesh_max_level
  let r := adapt_compute_desired_level_ cfg criteria b level_maximum
  ({ r.2 with level_next_ := r.1 }, [Event.control_sync Phase.phase_adapt_called SyncKind.neighbor])

/-- The method `Block::adapt_send_level()`: the messages (and warnings) of the
loop over the neighbour faces; nothing on a block that is not a leaf.  The
block itself is not changed. -/
def adapt_send_level (T : Topology) (b : Block) : List Event :=
  if ! b.is_leaf then [] else
  let level := b.level
  let rank := b.rank
  let min_face_rank := 0
  (T.it_neighbor min_face_rank b.index_).flatMap (fun of3 =>
    let ic3 : Int3 := (0, 0, 0)
    let level_face := b.face_level of3
    if level_face = level then
      [Event.put_level (T.neighbor_ b.index_ of3) ⟨b.index_, ic3, of3, level, b.level_next_⟩]
    else if level_face = level - 1 then
      let ic3 := b.index_.child level
      let op3 := (parent_face_ of3 ic3).1
      if op3.1 = of3.1 ∧ op3.2.1 = of3.2.1 ∧ op3.2.2 = of3.2.2 then
        let index_uncle := (T.neighbor_ b.index_ of3).index_parent
        [Event.put_level index_uncle ⟨b.index_, ic3, of3, level, b.level_next_⟩]
      else []
    else if level_face = level + 1 then
      let if3 := neg3 of3
      (T.ItChild rank (some if3)).map (fun ic3 =>
        let index_nibling := (T.neighbor_ b.index_ of3).index_child ic3
        Event.put_level index_nibling ⟨b.index_, ic3, of3, level, b.level_next_⟩)
    else [Event.warning_level_jump level level_face])

/-- The method `Block::adapt_recv_same(of3,level_face_new)`. -/
def adapt_recv_same (T : Topology) (b : Block) (of3 : Int3) (level_face_new : Int) : Block :=
  let rank := b.rank
  let b1 := b.set_face_level_next of3 level_face_new
  (T.ItChild rank (some of3)).foldl (fun acc jc3 =>
    let min_face_rank := 0
    let index_child := b.index_.index_child jc3
    (T.it_face min_face_rank index_child (some jc3) (some of3)).foldl
      (fun acc jf3 => acc.set_child_face_level_next jc3 jf3 level_face_new) acc) b1

/-- The method `Block::adapt_recv_coarse(of3,ic3,level_face_new)`. -/
def adapt_recv_coarse (T : Topology) (b : Block) (of3 ic3 : Int3) (level_face_new : Int) :
    Block :=
  let rank := b.rank
  let min_face_rank := 0
  (T.it_face min_face_rank b.index_ (some ic3) (some of3)).foldl (fun acc jf3 =>
    let acc := acc.set_face_level_next jf3 level_face_new
    (T.ItChild rank (some jf3)).foldl (fun acc jc3 =>
      let index_child := b.index_.index_child jc3
      (T.it_face min_face_rank index_child (some jc3) (some jf3)).foldl
        (fun acc kf3 => acc.set_child_face_level_next jc3 kf3 level_face_new) acc) acc) b

/-- The method `Block::adapt_recv_fine(of3,ic3,level_face_new)`. -/
def adapt_recv_fine (T : Topology) (b : Block) (of3 ic3 : Int3) (level_face_new : Int) :
    Block :=
  let rank := b.rank
  let b1 := b.set_face_level_next of3 level_face_new
  (T.ItChild rank (some of3)).foldl (fun acc jc3 =>
    let min_face_rank := 0
    let index_child := b.index_.index_child jc3
    (T.it_face min_face_rank index_child (some jc3) (some of3)).foldl (fun acc jf3 =>
      let index_in := T.neighbor_ index_child jf3
      let index_neighbor := (T.neighbor_ b.index_ of3).index_child ic3
      if index_in = index_neighbor then
        acc.set_child_face_level_next jc3 jf3 level_face_new
      else acc) acc) b1

/-- The method `Block::adapt_recv_recurse`.  Modelled from the spec: `ERROR1`
is fatal (spec §7), so the forwarding loop after it is never reached. -/
def adapt_recv_recurse (_T : Topology) (_b : Block) (_m : Msg) : List Event :=
  [Event.error_recurse]

/-- The local `is_sibling` of `p_adapt_recv_level`: the sender has the
receiver's parent, and both are above level 0. -/
def is_sibling (index_ index_send : Index) : Bool :=
  if index_.level > 0 ∧ index_send.level > 0 then
    decide (index_send.index_parent = index_.index_parent)
  else false

/-- The local `is_nephew` of `p_adapt_recv_level`: the sender is a child of a
sibling of the receiver. -/
def is_nephew (index_ index_send : Index) : Bool :=
  if index_.level > 0 ∧ index_send.level > 1 then
    decide (index_send.index_parent.index_parent = index_.index_parent)
  else false

/-- The local `level_next` of `p_adapt_recv_level` after lines 507-547: the
coarsening of the block is cancelled when a sibling does not coarsen or has
children, then the level is kept within one of the neighbour's. -/
def level_next_local (b : Block) (m : Msg) : Int :=
  let level_next := b.level_next_
  let level := b.level
  let is_coarsening : Bool := decide (level_next < level)
  let is_finer_neighbor : Bool := decide (m.level_face_new > level_next)
  let level_next :=
    if is_coarsening then
      let can_coarsen := true
      let can_coarsen :=
        if is_sibling b.index_ m.index_send && is_finer_neighbor then false else can_coarsen
      let can_coarsen := if is_nephew b.index_ m.index_send then false else can_coarsen
      if ! can_coarsen then level else level_next
    else level_next
  max level_next (m.level_face_new - 1)

/-- The assignment `face_level_last_[ICF3(ic3,if3)] = level_face_new` of
`p_adapt_recv_level` (line 464). -/
def face_level_last_update (b : Block) (m : Msg) : Block :=
  { b with face_level_last_ :=
      fun k => if k = (m.ic3, m.if3) then m.level_face_new else b.face_level_last_ k }

/-- The dispatch of `p_adapt_recv_level` on a leaf (lines 479-496), by the
sender's current level relative to the block's, with `of3 = -if3`. -/
def adapt_recv_dispatch (T : Topology) (b : Block) (m : Msg) : Block × List Event :=
  let level := b.level
  let of3 := neg3 m.if3
  if m.level_face_curr = level then
    (adapt_recv_same T b of3 m.level_face_new, [])
  else if m.level_face_curr = level + 1 then
    (adapt_recv_fine T b of3 m.ic3 m.level_face_new, [])
  else if m.level_face_curr = level - 1 then
    (adapt_recv_coarse T b of3 m.ic3 m.level_face_new, [])
  else (b, [Event.warning_level_jump level m.level_face_curr])

/-- The entry method `Block::p_adapt_recv_level(index_send,ic3,if3,
level_face_curr,level_face_new)`.  Modelled from the spec: a failed `ASSERT2`
aborts (spec §7), leaving `level_next_` unassigned. -/
def p_adapt_recv_level (T : Topology) (b : Block) (m : Msg) : Block × List Event :=
  let ev0 : List Event :=
    if m.index_send.level ≠ m.level_face_curr then
      [Event.level_mismatch m.index_send.level m.level_face_curr]
    else []
  let skip_face_update : Bool := decide (b.face_level_last_ (m.ic3, m.if3) > m.level_face_new)
  if skip_face_update then (b, ev0) else
  let b1 := face_level_last_update b m
  if ! b1.is_leaf then
    (b1, ev0 ++ adapt_recv_recurse T b1 m)
  else
    let r := adapt_recv_dispatch T b1 m
    let b2 := r.1
    let level_next := level_next_local b1 m
    if level_next ≠ b2.level_next_ then
      if level_next > b2.level_next_ then
        let b3 : Block := { b2 with level_next_ := level_next }
        (b3, ev0 ++ r.2 ++ Event.call_adapt_send_level :: adapt_send_level T b3)
      else
        (b2, ev0 ++ r.2 ++ [Event.assert_level_next level_next b2.level_next_])
    else (b2, ev0 ++ r.2)

/-- The block after a sequence of `p_adapt_recv_level` deliveries, in order. -/
def deliver (T : Topology) (b : Block) (ms : List Msg) : Block :=
  ms.foldl (fun acc m => (p_adapt_recv_level T acc m).1) b

/-- The method `Block::adapt_refine_()`: one `create_block` per child that is
not yet in `children_`, which it joins; the block stops being a leaf. -/
def adapt_refine_ (T : Topology) (b : Block) : Block × List Event :=
  let b0 : Block := { b with adapt_ := adapt_unknown }
  let rank := b0.rank
  let r := (T.ItChild rank none).foldl (fun (acc : Block × List Event) ic3 =>
    let index_child := acc.1.index_.index_child ic3
    if ! acc.1.is_child_ index_child then
      ({ acc.1 with children_ := acc.1.children_ ++ [index_child] },
        acc.2 ++ [Event.create_block index_child acc.1.adapt_step_ acc.1.cycle_
          acc.1.time_ acc.1.dt_ (fun f => acc.1.child_face_level_curr_ (ic3, f))])
    else acc) (b0, [])
  ({ r.1 with is_leaf_ := false }, r.2)

/-- The method `Block::adapt_coarsen_()`: above level 0, a leaf sends its data
and face levels to its parent. -/
def adapt_coarsen_ (b : Block) : Block × List Event :=
  let level := b.level
  if level > 0 ∧ b.is_leaf = true then
    let index_parent := b.index_.index_parent
    let ic3 := b.index_.child level
    (b, [Event.put_child index_parent ic3 b.face_level_curr_])
  else (b, [])

/-- The method `Block::adapt_next_()`: commit the face levels, then refine or
coarsen a leaf according to `level_next_`, then synchronise. -/
def adapt_next_ (T : Topology) (b : Block) : Block × List Event :=
  let b1 := b.update_levels_
  let r : Block × List Event :=
    if b1.is_leaf then
      let r1 : Block × List Event :=
        if b1.level < b1.level_next_ then
          let r := adapt_refine_ T b1
          (r.1, Event.call_adapt_refine :: r.2)
        else (b1, [])
      let r2 : Block × List Event :=
        if r1.1.level > r1.1.level_next_ then
          let r := adapt_coarsen_ r1.1
          (r.1, Event.call_adapt_coarsen :: r.2)
        else (r1.1, [])
      (r2.1, r1.2 ++ r2.2)
    else (b1, [])
  (r.1, r.2 ++ [Event.control_sync Phase.phase_adapt_end SyncKind.quiescence])

/-- The level the negotiation rule assigns, in the words of the specification
(§4.3, step 5): the base is the block's level when the block is coarsening and
the sender is a nephew or a sibling that is not coarsening, and the old
`level_next_` otherwise; the result is the base raised to `lvl_new - 1`.
A sibling needs both blocks above level 0, a nephew the receiver above level 0
and the sender above level 1. -/
def level_next_spec (b : Block) (m : Msg) : Int :=
  let sibling : Prop := b.level ≥ 1 ∧ m.index_send.level ≥ 1 ∧
    m.index_send.index_parent = b.index_.index_parent
  let nephew : Prop := b.level ≥ 1 ∧ m.index_send.level ≥ 2 ∧
    m.index_send.index_parent.index_parent = b.index_.index_parent
  let base : Int :=
    if b.level_next_ < b.level ∧ (nephew ∨ (sibling ∧ m.level_face_new > b.level_next_))
    then b.level else b.level_next_
  max base (m.level_face_new - 1)

/-- The values of one axis of a face or child key: `vals` on the axes below
`rank`, 0 on the others. -/
def axisValues (rank k : Int) (vals : List Int) : List Int := if k < rank then vals else [0]

/-- The triples over the given per-axis values, first axis fastest. -/
def triples (xs ys zs : List Int) : List Int3 :=
  zs.flatMap (fun z => ys.flatMap (fun y => xs.map (fun x => (x, y, z))))

/-- Modelled from the spec: the nonzero faces `f ∈ {-1,0,+1}^rank` (§4.2). -/
def allFaces (rank : Int) : List Int3 :=
  (triples (axisValues rank 0 [-1, 0, 1]) (axisValues rank 1 [-1, 0, 1])
    (axisValues rank 2 [-1, 0, 1])).filter (fun f => decide (f ≠ (0, 0, 0)))

/-- Modelled from the spec: the child keys `ic ∈ {0,1}^rank` adjacent to a
face, all of them when no face is given (§4.2, `ItChild`). -/
def childKeys (rank : Int) (face : Option Int3) : List Int3 :=
  let adjacent (c f : Int) : Bool := decide (f = 0 ∨ (f = 1 ∧ c = 1) ∨ (f = -1 ∧ c = 0))
  (triples (axisValues rank 0 [0, 1]) (axisValues rank 1 [0, 1])
    (axisValues rank 2 [0, 1])).filter (fun ic =>
      match face with
      | none => true
      | some f => adjacent ic.1 f.1 && adjacent ic.2.1 f.2.1 && adjacent ic.2.2 f.2.2)

/-- Modelled from the spec: the faces of a child `ic` that touch the parent
face `f`, all faces when none is given (§4.2, `ItFace`). -/
def childFaces (rank : Int) (ic3 face : Option Int3) : List Int3 :=
  let touches (c f j : Int) : Bool :=
    decide ((f ≠ 0 ∧ j = f) ∨ (f = 0 ∧ ¬ (c = 0 ∧ j = -1) ∧ ¬ (c = 1 ∧ j = 1)))
  (allFaces rank).filter (fun j =>
    match ic3, face with
    | some c, some f => touches c.1 f.1 j.1 && touches c.2.1 f.2.1 j.2.1 &&
        touches c.2.2 f.2.2 j.2.2
    | _, _ => true)

/-- The position along one axis of a node with the given child selectors. -/
def axisCoord (sel : List Int) : Int := sel.foldl (fun a c => 2 * a + c) 0

/-- The `n` binary digits of `x`, most significant first. -/
def axisDigits (n : Nat) (x : Int) : List Int :=
  (List.range n).map (fun j => (x / 2 ^ (n - 1 - j)) % 2)

/-- Modelled from the spec: the neighbour of an index at the same level across
a face, in a forest of one periodic root tree (§4.2). -/
def periodicNeighbor (i : Index) (f : Int3) : Index :=
  let n := i.path.length
  let shift (sel : List Int) (d : Int) : List Int := axisDigits n ((axisCoord sel + d) % 2 ^ n)
  let xs := shift (i.path.map (fun c => c.1)) f.1
  let ys := shift (i.path.map (fun c => c.2.1)) f.2.1
  let zs := shift (i.path.map (fun c => c.2.2)) f.2.2
  { i with path := (xs.zip (ys.zip zs)) }

/-- Modelled from the spec: an instance of the geometric helpers (§4.2) for a
forest of one periodic root tree, on which the handlers are evaluated at
concrete blocks. -/
def periodicTopology (rank : Int) : Topology where
  ItChild := fun r face => childKeys r face
  it_face := fun _ _ ic3 face => childFaces rank ic3 face
  it_neighbor := fun _ _ => allFaces rank
  neighbor_ := periodicNeighbor

/-- A leaf at level 2 of a two-dimensional forest that wants to coarsen
(`level_next_ = 1`), with all neighbours at level 2. -/
def sampleLeaf : Block :=
  { index_ := ⟨0, [(0, 0, 0), (1, 1, 0)]⟩, rank := 2, level_next_ := 1, cycle_ := 4,
    face_level_curr_ := fun _ => 2, face_level_next_ := fun _ => 2 }

/-- The announcement of the left sibling of `sampleLeaf`, which stays at level 2. -/
def sampleMsg : Msg :=
  { index_send := ⟨0, [(0, 0, 0), (0, 1, 0)]⟩, ic3 := (0, 0, 0), if3 := (1, 0, 0),
    level_face_curr := 2, level_face_new := 2 }

/-- The announcement of a level-3 block below the lower sibling of `sampleLeaf`. -/
def sampleNephewMsg : Msg :=
  { index_send := ⟨0, [(0, 0, 0), (1, 0, 0), (1, 1, 0)]⟩, ic3 := (1, 1, 0), if3 := (0, 1, 0),
    level_face_curr := 3, level_face_new := 3 }

/-- A configuration with `L_max = 3`, initial cycle 4, adapting every 2 cycles. -/
def sampleConfig : Config :=
  { mesh_max_level := 3, initial_cycle := 4, mesh_adapt_interval := 2 }

/-- Whether an event is the fatal error of `adapt_recv_recurse`. -/
def Event.isRecurseError : Event → Bool
  | .error_recurse => true
  | _ => false

/-- Whether an event is the warning about a level jump. -/
def Event.isLevelWarning : Event → Bool
  | .warning_level_jump _ _ => true
  | _ => false

/-- Whether an event is a `control_sync` towards the given phase. -/
def Event.isSyncTo (p : Phase) : Event → Bool
  | .control_sync q _ => decide (q = p)
  | _ => false

/-- Modelled from the spec: `Index::is_root()`, the root of the entire forest
(§4.1, step `end`). -/
def Index.is_root (i : Index) : Bool := decide (i.tree = 0 ∧ i.path = [])

/-- Modelled from the spec: the macro `NC(rank)` is not in the sources; it is
the number `2^d` of children of a block (§4.1). -/
def NC (rank : Int) : Int := 2 ^ rank.toNat

/-- Modelled from the spec: `Sync::set_stop(stop)`, the number of
acknowledgements the counter expects (§3). -/
def Sync.set_stop (s : Sync) (stop : Int) : Sync := { s with stop := stop }

/-- Modelled from the spec: `Sync::reset()`, the count starts again at 0. -/
def Sync.reset (s : Sync) : Sync := { s with count := 0 }

/-- Modelled from the spec: `Sync::next()` ticks the counter and tells whether
it has reached the expected number (§4.4, step 5 of `p_adapt_recv_child`). -/
def Sync.next (s : Sync) : Sync × Bool :=
  ({ s with count := s.count + 1 }, decide (s.count + 1 = s.stop))

/-- Modelled from the spec: `Block::set_face_level_curr(if3,level)`. -/
def Block.set_face_level_curr (b : Block) (if3 : Int3) (level : Int) : Block :=
  { b with face_level_curr_ := fun k => if k = if3 then level else b.face_level_curr_ k }

/-- Modelled from the spec: `Block::set_child_face_level_curr(ic3,if3,level)`. -/
def Block.set_child_face_level_curr (b : Block) (ic3 if3 : Int3) (level : Int) : Block :=
  { b with child_face_level_curr_ :=
      fun k => if k = (ic3, if3) then level else b.child_face_level_curr_ k }

/-- The method `Block::adapt_delete_child_(index_child)`: tell the child to
delete itself, tick `sync_coarsen_`, and clear `children_` when it is done. -/
def adapt_delete_child_ (b : Block) (index_child : Index) : Block × List Event :=
  let r := b.sync_coarsen_.next
  let b1 : Block := { b with sync_coarsen_ := r.1 }
  if r.2 then ({ b1 with children_ := [] }, [Event.put_delete index_child])
  else (b1, [Event.put_delete index_child])

/-- The entry method `Block::p_adapt_recv_child(ic3,na,array,nf,
child_face_level_curr)` on the parent.  The field data (`store_face_`) is not
part of the state; the array `child_face_level_curr`, read at `IF3(of3)`, is a
map keyed by the face. -/
def p_adapt_recv_child (T : Topology) (b : Block) (ic3 : Int3)
    (child_face_level_curr : Int3 → Int) : Block × List Event :=
  let min_face_rank := 0
  let index_child := b.index_.index_child ic3
  let b1 := (T.it_face min_face_rank index_child none none).foldl (fun acc of3 =>
    let level_child := child_face_level_curr of3
    acc.set_child_face_level_curr ic3 of3 level_child) b
  let b2 := (T.it_face min_face_rank b.index_ none none).foldl (fun acc of3 =>
    let level_child := child_face_level_curr of3
    let r := parent_face_ of3 ic3
    if r.2 then acc.set_face_level_curr r.1 level_child else acc) b1
  let b3 : Block := { b2 with is_leaf_ := true }
  let r := adapt_delete_child_ b3 index_child
  ({ r.1 with age_ := 0 }, r.2)

/-- The entry method `Block::p_adapt_delete()`. -/
def p_adapt_delete (b : Block) : Block × List Event :=
  ({ b with delete_ := true }, [])

/-- The method `Block::adapt_end_()`.  A block marked `delete_` destroys itself
and returns; otherwise `face_level_last_` is zeroed, `sync_coarsen_` re-armed,
and the adapt phase is entered again or left.  In
`is_first_cycle && (adapt_step_++ < level_maximum)` the increment happens only
when `is_first_cycle` holds, and the comparison reads the value before it. -/
def adapt_end_ (cfg : Config) (b : Block) : Block × List Event :=
  let ev0 : List Event := if b.index_.is_root then [Event.done_inserting] else []
  if b.delete_ then (b, ev0 ++ [Event.destroy]) else
  let b1 : Block := { b with face_level_last_ := fun _ => 0 }
  let rank := b1.rank
  let b2 : Block := { b1 with sync_coarsen_ := (b1.sync_coarsen_.set_stop (NC rank)).reset }
  let initial_cycle := cfg.initial_cycle
  let is_first_cycle : Bool := decide (initial_cycle = b2.cycle)
  let level_maximum := cfg.mesh_max_level
  let r : Bool × Block :=
    if is_first_cycle then
      (decide (b2.adapt_step_ < level_maximum), { b2 with adapt_step_ := b2.adapt_step_ + 1 })
    else (false, b2)
  let adapt_again := r.1
  if adapt_again then
    (r.2, ev0 ++ [Event.control_sync Phase.phase_adapt_enter SyncKind.quiescence])
  else
    (r.2, ev0 ++ [Event.control_sync Phase.phase_adapt_exit SyncKind.quiescence])

/-- The number of times a block runs the adapt phase: `phase` stands for the
steps before `adapt_end_` (`adapt_begin_`, `adapt_called_`, the deliveries,
`adapt_next_`); the phase is run again as long as `adapt_end_` synchronises
towards `phase_adapt_enter`.  The result is `none` when the fuel runs out. -/
def adapt_loop (cfg : Config) (phase : Block → Block) : Nat → Block → Option Nat
  | 0, _ => none
  | fuel + 1, b =>
    let r := adapt_end_ cfg (phase b)
    if r.2.any (Event.isSyncTo Phase.phase_adapt_enter) then
      (adapt_loop cfg phase fuel r.1).map (fun n => n + 1)
    else some 1

/-- The block after a sequence of `p_adapt_recv_child` calls, in order. -/
def recv_children (T : Topology) (b : Block) (calls : List (Int3 × (Int3 → Int))) : Block :=
  calls.foldl (fun acc c => (p_adapt_recv_child T acc c.1 c.2).1) b

/-- The messages `adapt_send_level` owes to one neighbour face `f`, in the
words of the specification (§4.3, `send_level`): one to the neighbour at the
same level, one to the uncle when `parent_face(f, ic) = f` for the block's own
child key `ic`, one to each nibling adjacent to the mirror face `-f`, and none
for any other face level.  Each carries the sender's `(level, level_next)`. -/
def send_level_face_spec (T : Topology) (b : Block) (f : Int3) : List Event :=
  let announce (recv : Index) (ic : Int3) : Event :=
    Event.put_level recv
      { index_send := b.index_, ic3 := ic, if3 := f, level_face_curr := b.level,
        level_face_new := b.level_next_ }
  if b.face_level f = b.level then [announce (T.neighbor_ b.index_ f) (0, 0, 0)]
  else if b.face_level f = b.level - 1 then
    if (parent_face_ f (b.index_.child b.level)).1 = f then
      [announce (T.neighbor_ b.index_ f).index_parent (b.index_.child b.level)]
    else []
  else if b.face_level f = b.level + 1 then
    (T.ItChild b.rank (some (neg3 f))).map
      (fun ic => announce ((T.neighbor_ b.index_ f).index_child ic) ic)
  else []

/-- The child keys, among `keys`, for which `adapt_refine_` creates a block on
a block with index `i`: those whose child index is not among `children`, nor
among the indices created for earlier keys. -/
def refineKeys (i : Index) : List Index → List Int3 → List Int3
  | _, [] => []
  | children, ic :: rest =>
    if i.index_child ic ∈ children then refineKeys i children rest
    else ic :: refineKeys i (children ++ [i.index_child ic]) rest

/-- A block of a two-dimensional forest at level 1 with its four children,
not a leaf, with `sync_coarsen_` armed for the four children. -/
def sampleParent : Block :=
  { index_ := ⟨0, [(0, 0, 0)]⟩, rank := 2, is_leaf_ := false, level_next_ := 1, cycle_ := 4,
    children_ := [⟨0, [(0, 0, 0), (0, 0, 0)]⟩, ⟨0, [(0, 0, 0), (1, 0, 0)]⟩,
      ⟨0, [(0, 0, 0), (0, 1, 0)]⟩, ⟨0, [(0, 0, 0), (1, 1, 0)]⟩],
    face_level_curr_ := fun _ => 1, face_level_next_ := fun _ => 1,
    sync_coarsen_ := { stop := 4, count := 0 } }

/-- Forest consistency of a block (spec §3, I2): it is a leaf iff it has no
children. -/
def Consistent (b : Block) : Prop := b.is_leaf_ = true ↔ b.children_ = []

/-- The steps of the adapt phase before `adapt_end_`, with one refine vote and
no delivery: `adapt_begin_` then `adapt_next_`. -/
def samplePhase (b : Block) : Block :=
  (adapt_next_ (periodicTopology 2) (adapt_begin_ sampleConfig [adapt_refine] b).1).1

/-- An announcement to `sampleLeaf` from a sender two levels below it. -/
def sampleJumpMsg : Msg :=
  { index_send := ⟨0, [(0, 0, 0), (0, 1, 0), (1, 0, 0), (1, 0, 0)]⟩, ic3 := (1, 0, 0),
    if3 := (1, 0, 0), level_face_curr := 4, level_face_new := 4 }

/-- The method `Block::initialize_child_face_levels_()`: for each child and each
face of the child, the level across the face is `level + 1` when the child's
neighbour there is a child of this block (`inp == thisIndex`, the block's own
index) and the level across the parent's face otherwise; the zero direction
gets `level + 1`; finally the next levels are copied from the current ones. -/
def initialize_child_face_levels_ (T : Topology) (b : Block) : Block :=
  let rank := b.rank
  let level := b.level
  let b1 := (T.ItChild rank none).foldl (fun acc ic3 =>
    let index_child := acc.index_.index_child ic3
    let min_face_rank := 0
    let acc1 := (T.it_face min_face_rank index_child none none).foldl (fun acc if3 =>
      let ip3 := (parent_face_ if3 ic3).1
      let index_in := T.neighbor_ index_child if3
      let inp := index_in.index_parent
      let level_child_face := if inp = acc.index_ then level + 1 else acc.face_level ip3
      acc.set_child_face_level_curr ic3 if3 level_child_face) acc
    acc1.set_child_face_level_curr ic3 (0, 0, 0) (level + 1)) b
  { b1 with child_face_level_next_ := b1.child_face_level_curr_ }

/-- Whether the component `f` of a face of the child with key component `c`
points at the sibling along that axis: `f = +1` with `c = 0`, or `f = -1` with
`c = 1`. -/
def pointsAtSibling (f c : Int) : Bool := decide ((f = 1 ∧ c = 0) ∨ (f = -1 ∧ c = 1))

/-- Whether no component of the face `f` of the child `ic` points at a sibling. -/
def noSiblingComponent (f ic : Int3) : Bool :=
  ! pointsAtSibling f.1 ic.1 && ! pointsAtSibling f.2.1 ic.2.1 && ! pointsAtSibling f.2.2 ic.2.2

/-- Whether an event is a `PUT_LEVEL` message of `b` in SEND-COARSE mode: its
face is one across which `b` sees the next-coarser level. -/
def Event.isCoarseMsg (b : Block) : Event → Bool
  | .put_level _ m => decide (b.face_level m.if3 = b.level - 1)
  | _ => false

/-- The `(ic, f)` key carried by a `PUT_LEVEL` message. -/
def Event.levelKey : Event → Option (Int3 × Int3)
  | .put_level _ m => some (m.ic3, m.if3)
  | _ => none

/-- The state of `EnzoMethodComovingExpansion`
(`src/Enzo/enzo_EnzoMethodComovingExpansion.cpp`). -/
structure EnzoMethodComovingExpansion where
  comoving_coordinates_ : Bool
deriving DecidableEq, Repr

/-- What `EnzoMethodComovingExpansion::compute` and `::timestep` read from the
block and the simulation: whether the block is a leaf, the number of fields,
whether `physics("cosmology")` is an object (`true`) or `NULL` (`false`),
`EnzoBlock::DualEnergyFormalism`, and whether the pressure routine returns
`ENZO_FAIL`.  The numerical data are not modelled. -/
structure EnzoBlockView where
  is_leaf : Bool
  field_count : Int
  cosmology : Bool
  DualEnergyFormalism : Bool := false
  pressure_fails : Bool := false
deriving DecidableEq, Repr

/-- What `compute` and `timestep` do, in program order. -/
inductive EnzoEvent where
  /-- The call `block->compute_done()`. -/
  | compute_done
  /-- The lookup `problem()->physics("cosmology")`. -/
  | physics_lookup
  /-- A failed `ASSERT`, with its message; the run ends. -/
  | assert_failure (message : String)
  /-- A call of a member of the cosmology object through a `NULL` pointer. -/
  | null_dereference
  /-- The call `cosmology->compute_expansion_factor`. -/
  | compute_expansion_factor
  /-- The call `cosmology->compute_expansion_timestep`. -/
  | compute_expansion_timestep
  /-- The pressure computation, with or without the dual energy formalism. -/
  | compute_pressure (dual_energy : Bool)
  /-- The call `exit(ENZO_FAIL)`. -/
  | exit_fail
  /-- The call of the Fortran routine `expand_terms`. -/
  | expand_terms
  /-- The return of `timestep` with `ENZO_HUGE_VAL`, before any other work. -/
  | return_huge_val
deriving DecidableEq, Repr

/-- Modelled from the spec: the macro `ASSERT(function, message, condition)` is
not in the sources; an assertion whose condition is false is a failure that
ends the run (spec §7), as in every other use of the macro.  The result is
whether the assertion passes. -/
def ASSERT (condition : Bool) : Bool := condition

/-- The condition passed to `ASSERT` in `compute` (line 49) and in `timestep`
(line 167): `! (comoving_coordinates_ && (cosmology != NULL))`. -/
def cosmology_assert_condition (comoving_coordinates_ cosmology : Bool) : Bool :=
  ! (comoving_coordinates_ && cosmology)

/-- The method `EnzoMethodComovingExpansion::compute(block)`.  The guard of
lines 37-42 calls `compute_done()` and does not return. -/
def EnzoMethodComovingExpansion.compute (m : EnzoMethodComovingExpansion)
    (block : EnzoBlockView) : List EnzoEvent :=
  let ev1 : List EnzoEvent :=
    if ! (block.is_leaf && m.comoving_coordinates_ && decide (block.field_count > 0)) then
      [EnzoEvent.compute_done]
    else []
  let cosmology := block.cosmology
  let ev2 := ev1 ++ [EnzoEvent.physics_lookup]
  if ! ASSERT (cosmology_assert_condition m.comoving_coordinates_ cosmology) then
    ev2 ++ [EnzoEvent.assert_failure
      "comoving_coordinates enabled but missing EnzoPhysicsCosmology"]
  else if ! cosmology then ev2 ++ [EnzoEvent.null_dereference]
  else
    let ev3 := ev2 ++ [EnzoEvent.compute_expansion_factor,
      EnzoEvent.compute_pressure block.DualEnergyFormalism]
    if block.pressure_fails then ev3 ++ [EnzoEvent.exit_fail]
    else ev3 ++ [EnzoEvent.expand_terms, EnzoEvent.compute_done]

/-- The method `EnzoMethodComovingExpansion::timestep(block)`. -/
def EnzoMethodComovingExpansion.timestep (m : EnzoMethodComovingExpansion)
    (block : EnzoBlockView) : List EnzoEvent :=
  if ! m.comoving_coordinates_ then [EnzoEvent.return_huge_val]
  else
    let cosmology := block.cosmology
    if ! ASSERT (cosmology_assert_condition m.comoving_coordinates_ cosmology) then
      [EnzoEvent.physics_lookup, EnzoEvent.assert_failure
        "comoving_coordinates enabled but missing EnzoPhysicsCosmology"]
    else if ! cosmology then [EnzoEvent.physics_lookup, EnzoEvent.null_dereference]
    else [EnzoEvent.physics_lookup, EnzoEvent.compute_expansion_timestep]

/-- Whether an event is a failed `ASSERT`. -/
def EnzoEvent.isAssertFailure : EnzoEvent → Bool
  | .assert_failure _ => true
  | _ => false

/-- Whether an event belongs to the expansion work of `compute`: the cosmology
lookup, the expansion factor, the pressure computation, `expand_terms`. -/
def EnzoEvent.isExpansionWork : EnzoEvent → Bool
  | .physics_lookup => true
  | .compute_expansion_factor => true
  | .compute_pressure _ => true
  | .expand_terms => true
  | _ => false

/-- Whether an event is the call `ckDestroy()`. -/
def Event.isDestroy : Event → Bool
  | .destroy => true
  | _ => false

/-- Whether an event is a `control_sync` call, towards any phase. -/
def Event.isControlSync : Event → Bool
  | .control_sync _ _ => true
  | _ => false

/-- The leaf `sampleLeaf` (child `(1,1,0)` of its parent) seeing the
next-coarser level 1 across its faces with a component `+1`, which leave the
parent, and its own level 2 across the others. -/
def sampleFineLeaf : Block :=
  { sampleLeaf with
    face_level_curr_ := fun f => if f.1 = 1 ∨ f.2.1 = 1 then 1 else 2 }

/-- Writing the value `v` into `face_level_next_` at the keys of `KF` and into
`child_face_level_next_` at the keys of `KC`: the shape of every update made
by `adapt_recv_same`, `adapt_recv_fine` and `adapt_recv_coarse`. -/
def paint (KF : Int3 → Bool) (KC : Int3 × Int3 → Bool) (v : Int) (b : Block) : Block :=
  { b with face_level_next_ := fun k => if KF k then v else b.face_level_next_ k,
           child_face_level_next_ := fun k => if KC k then v else b.child_face_level_next_ k }

/-- A block update that writes only `v`, only in the two next-level maps, at
keys that do not depend on the block. -/
def Paints (v : Int) (F : Block → Block) : Prop :=
  ∃ (KF : Int3 → Bool) (KC : Int3 × Int3 → Bool), ∀ b : Block, F b = paint KF KC v b

/-! ## Lemmas on the face-level updates -/

theorem paint_paint (KF : Int3 → Bool) (KC : Int3 × Int3 → Bool) (v : Int) (b : Block) :
    paint KF KC v (paint KF KC v b) = paint KF KC v b := by
  cases b
  simp only [paint, Block.mk.injEq, true_and, and_true]
  constructor <;> funext k <;> split <;> rfl

theorem paints_id (v : Int) : Paints v (fun b => b) := by
  refine ⟨fun _ => false, fun _ => false, fun b => ?_⟩
  cases b
  simp [paint]

theorem paints_set_face (v : Int) (f : Int3) :
    Paints v (fun b => b.set_face_level_next f v) := by
  refine ⟨fun k => decide (k = f), fun _ => false, fun b => ?_⟩
  cases b
  simp [paint, Block.set_face_level_next]

theorem paints_set_child (v : Int) (ic3 if3 : Int3) :
    Paints v (fun b => b.set_child_face_level_next ic3 if3 v) := by
  refine ⟨fun _ => false, fun k => decide (k = (ic3, if3)), fun b => ?_⟩
  cases b
  simp [paint, Block.set_child_face_level_next]

theorem paints_comp (v : Int) (F G : Block → Block) (hF : Paints v F) (hG : Paints v G) :
    Paints v (fun b => G (F b)) := by
  obtain ⟨KF1, KC1, h1⟩ := hF
  obtain ⟨KF2, KC2, h2⟩ := hG
  refine ⟨fun k => KF1 k || KF2 k, fun k => KC1 k || KC2 k, fun b => ?_⟩
  show G (F b) = _
  rw [h1, h2]
  cases b
  simp only [paint, Block.mk.injEq, true_and, and_true]
  constructor <;> funext k
  · cases KF1 k <;> cases KF2 k <;> simp
  · cases KC1 k <;> cases KC2 k <;> simp

theorem paints_foldl {α : Type} (v : Int) (step : Block → α → Block) (l : List α)
    (h : ∀ x, Paints v (fun b => step b x)) :
    Paints v (fun b => l.foldl step b) := by
  induction l with
  | nil => exact paints_id v
  | cons x xs ih =>
    simp only [List.foldl_cons]
    exact paints_comp v (fun b => step b x) (fun b => xs.foldl step b) (h x) ih

theorem paints_ite (v : Int) (c : Prop) [Decidable c] (F : Block → Block) (hF : Paints v F) :
    Paints v (fun b => if c then F b else b) := by
  by_cases hc : c
  · simpa [hc] using hF
  · simpa [hc] using paints_id v

theorem adapt_recv_same_paints (T : Topology) (i : Index) (r : Int) (of3 : Int3) (v : Int) :
    ∃ (KF : Int3 → Bool) (KC : Int3 × Int3 → Bool), ∀ b : Block, b.index_ = i → b.rank = r →
      adapt_recv_same T b of3 v = paint KF KC v b := by
  obtain ⟨KF, KC, h⟩ := paints_comp v (fun b => b.set_face_level_next of3 v)
    (fun b => (T.ItChild r (some of3)).foldl (fun acc jc3 =>
      (T.it_face 0 (i.index_child jc3) (some jc3) (some of3)).foldl
        (fun acc jf3 => acc.set_child_face_level_next jc3 jf3 v) acc) b)
    (paints_set_face v of3)
    (paints_foldl v _ _ (fun jc3 => paints_foldl v _ _ (fun jf3 => paints_set_child v jc3 jf3)))
  refine ⟨KF, KC, fun b hi hr => ?_⟩
  subst hi hr
  exact h b

theorem adapt_recv_fine_paints (T : Topology) (i : Index) (r : Int) (of3 ic3 : Int3) (v : Int) :
    ∃ (KF : Int3 → Bool) (KC : Int3 × Int3 → Bool), ∀ b : Block, b.index_ = i → b.rank = r →
      adapt_recv_fine T b of3 ic3 v = paint KF KC v b := by
  obtain ⟨KF, KC, h⟩ := paints_comp v (fun b => b.set_face_level_next of3 v)
    (fun b => (T.ItChild r (some of3)).foldl (fun acc jc3 =>
      (T.it_face 0 (i.index_child jc3) (some jc3) (some of3)).foldl (fun acc jf3 =>
        if T.neighbor_ (i.index_child jc3) jf3 = (T.neighbor_ i of3).index_child ic3 then
          acc.set_child_face_level_next jc3 jf3 v
        else acc) acc) b)
    (paints_set_face v of3)
    (paints_foldl v _ _ (fun jc3 => paints_foldl v _ _ (fun jf3 =>
      paints_ite v _ _ (paints_set_child v jc3 jf3))))
  refine ⟨KF, KC, fun b hi hr => ?_⟩
  subst hi hr
  exact h b

theorem adapt_recv_coarse_paints (T : Topology) (i : Index) (r : Int) (of3 ic3 : Int3)
    (v : Int) :
    ∃ (KF : Int3 → Bool) (KC : Int3 × Int3 → Bool), ∀ b : Block, b.index_ = i → b.rank = r →
      adapt_recv_coarse T b of3 ic3 v = paint KF KC v b := by
  obtain ⟨KF, KC, h⟩ := paints_foldl v (fun acc jf3 =>
      (T.ItChild r (some jf3)).foldl (fun acc jc3 =>
        (T.it_face 0 (i.index_child jc3) (some jc3) (some jf3)).foldl
          (fun acc kf3 => acc.set_child_face_level_next jc3 kf3 v) acc)
        (acc.set_face_level_next jf3 v))
    (T.it_face 0 i (some ic3) (some of3))
    (fun jf3 => paints_comp v (fun b => b.set_face_level_next jf3 v) _ (paints_set_face v jf3)
      (paints_foldl v _ _ (fun jc3 => paints_foldl v _ _ (fun kf3 =>
        paints_set_child v jc3 kf3))))
  refine ⟨KF, KC, fun b hi hr => ?_⟩
  subst hi hr
  exact h b

theorem level_next_local_ge (b : Block) (m : Msg) : b.level_next_ ≤ level_next_local b m := by
  unfold level_next_local
  simp only [decide_eq_true_eq]
  split_ifs <;> omega

theorem adapt_recv_dispatch_paints (T : Topology) (i : Index) (r : Int) (m : Msg) :
    ∃ (KF : Int3 → Bool) (KC : Int3 × Int3 → Bool), ∀ b : Block, b.index_ = i → b.rank = r →
      (adapt_recv_dispatch T b m).1 = paint KF KC m.level_face_new b := by
  by_cases h1 : m.level_face_curr = i.level
  · obtain ⟨KF, KC, h⟩ := adapt_recv_same_paints T i r (neg3 m.if3) m.level_face_new
    refine ⟨KF, KC, fun b hi hr => ?_⟩
    have hl : b.level = i.level := by rw [Block.level, hi]
    simp only [adapt_recv_dispatch]
    rw [hl, if_pos h1]
    exact h b hi hr
  by_cases h2 : m.level_face_curr = i.level + 1
  · obtain ⟨KF, KC, h⟩ := adapt_recv_fine_paints T i r (neg3 m.if3) m.ic3 m.level_face_new
    refine ⟨KF, KC, fun b hi hr => ?_⟩
    have hl : b.level = i.level := by rw [Block.level, hi]
    simp only [adapt_recv_dispatch]
    rw [hl, if_neg h1, if_pos h2]
    exact h b hi hr
  by_cases h3 : m.level_face_curr = i.level - 1
  · obtain ⟨KF, KC, h⟩ := adapt_recv_coarse_paints T i r (neg3 m.if3) m.ic3 m.level_face_new
    refine ⟨KF, KC, fun b hi hr => ?_⟩
    have hl : b.level = i.level := by rw [Block.level, hi]
    simp only [adapt_recv_dispatch]
    rw [hl, if_neg h1, if_neg h2, if_pos h3]
    exact h b hi hr
  · obtain ⟨KF, KC, h⟩ := paints_id m.level_face_new
    refine ⟨KF, KC, fun b hi hr => ?_⟩
    have hl : b.level = i.level := by rw [Block.level, hi]
    simp only [adapt_recv_dispatch]
    rw [hl, if_neg h1, if_neg h2, if_neg h3]
    exact h b

theorem level_next_local_last_update (b : Block) (m m' : Msg) :
    level_next_local (face_level_last_update b m') m = level_next_local b m := rfl

theorem recv_level_leaf_eq (T : Topology) (i : Index) (r : Int) (m : Msg) :
    ∃ (KF : Int3 → Bool) (KC : Int3 × Int3 → Bool), ∀ b : Block, b.index_ = i → b.rank = r →
      b.is_leaf_ = true → ¬ (b.face_level_last_ (m.ic3, m.if3) > m.level_face_new) →
      (p_adapt_recv_level T b m).1 =
        { paint KF KC m.level_face_new (face_level_last_update b m) with
          level_next_ := level_next_local b m } := by
  obtain ⟨KF, KC, h⟩ := adapt_recv_dispatch_paints T i r m
  refine ⟨KF, KC, fun b hi hr hleaf hns => ?_⟩
  have hge := level_next_local_ge b m
  have hd := h (face_level_last_update b m) hi hr
  have hleaf1 : (face_level_last_update b m).is_leaf = true := hleaf
  have hln : (paint KF KC m.level_face_new (face_level_last_update b m)).level_next_
      = b.level_next_ := rfl
  unfold p_adapt_recv_level
  simp only [hns, decide_False, Bool.false_eq_true, if_false, hleaf1, Bool.not_true, hd, hln,
    level_next_local_last_update]
  by_cases hne : level_next_local b m = b.level_next_
  · simp only [hne, ne_eq, not_true_eq_false, if_false]
    rw [← hln]
  · have hgt : level_next_local b m > b.level_next_ := by omega
    simp only [hne, ne_eq, not_false_eq_true, if_true, hgt]

theorem recv_level_skip (T : Topology) (b : Block) (m : Msg)
    (h : b.face_level_last_ (m.ic3, m.if3) > m.level_face_new) :
    p_adapt_recv_level T b m =
      (b, if m.index_send.level ≠ m.level_face_curr then
            [Event.level_mismatch m.index_send.level m.level_face_curr] else []) := by
  unfold p_adapt_recv_level
  simp only [h, decide_True, if_true]

theorem recv_level_nonleaf (T : Topology) (b : Block) (m : Msg)
    (hns : ¬ (b.face_level_last_ (m.ic3, m.if3) > m.level_face_new))
    (hleaf : b.is_leaf_ = false) :
    p_adapt_recv_level T b m =
      (face_level_last_update b m,
        (if m.index_send.level ≠ m.level_face_curr then
            [Event.level_mismatch m.index_send.level m.level_face_curr] else [])
          ++ [Event.error_recurse]) := by
  have hleaf1 : (face_level_last_update b m).is_leaf = false := hleaf
  unfold p_adapt_recv_level
  simp only [hns, decide_False, Bool.false_eq_true, if_false, hleaf1, Bool.not_false, if_true,
    adapt_recv_recurse]

theorem recv_level_leaf_events (T : Topology) (b : Block) (m : Msg)
    (hleaf : b.is_leaf_ = true)
    (hns : ¬ (b.face_level_last_ (m.ic3, m.if3) > m.level_face_new)) :
    (p_adapt_recv_level T b m).2 =
      (if m.index_send.level ≠ m.level_face_curr then
          [Event.level_mismatch m.index_send.level m.level_face_curr] else [])
        ++ (adapt_recv_dispatch T (face_level_last_update b m) m).2
        ++ (if level_next_local b m = b.level_next_ then []
            else Event.call_adapt_send_level ::
              adapt_send_level T (p_adapt_recv_level T b m).1) := by
  obtain ⟨KF, KC, h⟩ := adapt_recv_dispatch_paints T b.index_ b.rank m
  have hge := level_next_local_ge b m
  have hd := h (face_level_last_update b m) rfl rfl
  have hleaf1 : (face_level_last_update b m).is_leaf = true := hleaf
  have hln : (paint KF KC m.level_face_new (face_level_last_update b m)).level_next_
      = b.level_next_ := rfl
  unfold p_adapt_recv_level
  simp only [hns, decide_False, Bool.false_eq_true, if_false, hleaf1, Bool.not_true, hd, hln,
    level_next_local_last_update]
  by_cases hne : level_next_local b m = b.level_next_
  · simp only [hne, ne_eq, not_true_eq_false, if_false, if_true, List.append_nil]
  · have hgt : level_next_local b m > b.level_next_ := by omega
    simp only [hne, ne_eq, not_false_eq_true, if_true, hgt, if_false]

theorem adapt_recv_dispatch_events (T : Topology) (b : Block) (m : Msg) :
    ∀ e ∈ (adapt_recv_dispatch T b m).2,
      e.isPutLevel = false ∧ e.isSendLevelCall = false ∧ e.isAssertFailure = false := by
  intro e he
  simp only [adapt_recv_dispatch] at he
  split_ifs at he <;> simp at he
  subst he
  exact ⟨rfl, rfl, rfl⟩

theorem adapt_send_level_events (T : Topology) (b : Block) :
    ∀ e ∈ adapt_send_level T b, e.isSendLevelCall = false ∧ e.isAssertFailure = false := by
  intro e he
  unfold adapt_send_level at he
  split_ifs at he
  · simp at he
  · simp only [List.mem_flatMap] at he
    obtain ⟨of3, -, he⟩ := he
    split_ifs at he <;> first
      | (simp only [List.mem_singleton] at he; subst he; exact ⟨rfl, rfl⟩)
      | (simp only [List.mem_map] at he; obtain ⟨ic, -, rfl⟩ := he; exact ⟨rfl, rfl⟩)
      | simp at he

theorem recv_level_frame (T : Topology) (b : Block) (m : Msg) :
    (p_adapt_recv_level T b m).1.index_ = b.index_ ∧
    (p_adapt_recv_level T b m).1.is_leaf_ = b.is_leaf_ ∧
    (p_adapt_recv_level T b m).1.rank = b.rank ∧
    (p_adapt_recv_level T b m).1.children_ = b.children_ := by
  by_cases hs : b.face_level_last_ (m.ic3, m.if3) > m.level_face_new
  · rw [recv_level_skip T b m hs]; exact ⟨rfl, rfl, rfl, rfl⟩
  · cases hleaf : b.is_leaf_
    · rw [recv_level_nonleaf T b m hs hleaf]; exact ⟨rfl, hleaf, rfl, rfl⟩
    · obtain ⟨KF, KC, h⟩ := recv_level_leaf_eq T b.index_ b.rank m
      rw [h b rfl rfl hleaf hs]
      exact ⟨rfl, hleaf, rfl, rfl⟩

theorem recv_level_mono (T : Topology) (b : Block) (m : Msg) :
    b.level_next_ ≤ (p_adapt_recv_level T b m).1.level_next_ := by
  by_cases hs : b.face_level_last_ (m.ic3, m.if3) > m.level_face_new
  · rw [recv_level_skip T b m hs]
  · cases hleaf : b.is_leaf_
    · rw [recv_level_nonleaf T b m hs hleaf]; exact le_refl _
    · obtain ⟨KF, KC, h⟩ := recv_level_leaf_eq T b.index_ b.rank m
      rw [h b rfl rfl hleaf hs]
      exact level_next_local_ge b m

theorem deliver_frame (T : Topology) (ms : List Msg) : ∀ b : Block,
    (deliver T b ms).index_ = b.index_ ∧ (deliver T b ms).is_leaf_ = b.is_leaf_ ∧
    b.level_next_ ≤ (deliver T b ms).level_next_ := by
  induction ms with
  | nil => intro b; exact ⟨rfl, rfl, le_refl _⟩
  | cons m ms ih =>
    intro b
    obtain ⟨h1, h2, h3⟩ := ih (p_adapt_recv_level T b m).1
    obtain ⟨f1, f2, -, -⟩ := recv_level_frame T b m
    have hm := recv_level_mono T b m
    refine ⟨?_, ?_, ?_⟩
    · show (deliver T (p_adapt_recv_level T b m).1 ms).index_ = _
      rw [h1, f1]
    · show (deliver T (p_adapt_recv_level T b m).1 ms).is_leaf_ = _
      rw [h2, f2]
    · show _ ≤ (deliver T (p_adapt_recv_level T b m).1 ms).level_next_
      omega

theorem is_sibling_iff (i s : Index) : is_sibling i s = true ↔
    i.level ≥ 1 ∧ s.level ≥ 1 ∧ s.index_parent = i.index_parent := by
  unfold is_sibling
  split_ifs with h
  · simp only [decide_eq_true_eq]; constructor
    · intro hp; exact ⟨by omega, by omega, hp⟩
    · intro hp; exact hp.2.2
  · constructor
    · intro hp; exact absurd hp (by simp)
    · intro hp; exact absurd ⟨by omega, by omega⟩ h

theorem is_nephew_iff (i s : Index) : is_nephew i s = true ↔
    i.level ≥ 1 ∧ s.level ≥ 2 ∧ s.index_parent.index_parent = i.index_parent := by
  unfold is_nephew
  split_ifs with h
  · simp only [decide_eq_true_eq]; constructor
    · intro hp; exact ⟨by omega, by omega, hp⟩
    · intro hp; exact hp.2.2
  · constructor
    · intro hp; exact absurd hp (by simp)
    · intro hp; exact absurd ⟨by omega, by omega⟩ h

theorem level_next_local_eq_spec (b : Block) (m : Msg) :
    level_next_local b m = level_next_spec b m := by
  unfold level_next_local level_next_spec
  simp only [← is_sibling_iff, ← is_nephew_iff, Block.level]
  cases is_sibling b.index_ m.index_send <;> cases is_nephew b.index_ m.index_send <;>
    simp only [Bool.false_and, Bool.true_and, Bool.false_eq_true, if_false, if_true,
      Bool.not_true, Bool.not_false, decide_eq_true_eq, false_and, true_and, or_false,
      false_or, true_or, and_true, and_false, max_def] <;>
    split_ifs <;> first | rfl | omega | (simp at *)

theorem level_next_local_idem (b b' : Block) (m : Msg) (hi : b'.index_ = b.index_)
    (hl : b'.level_next_ = level_next_local b m) :
    level_next_local b' m = level_next_local b m := by
  have hge := level_next_local_ge b m
  revert hl hge
  unfold level_next_local Block.level
  rw [hi]
  cases is_sibling b.index_ m.index_send <;> cases is_nephew b.index_ m.index_send <;>
    simp only [Bool.false_and, Bool.true_and, Bool.false_eq_true, if_false, if_true,
      Bool.not_true, Bool.not_false, decide_eq_true_eq, max_def] <;>
    intro hl hge <;> rw [hl] <;> split_ifs <;> omega

theorem ev0_events (m : Msg) :
    ∀ e ∈ (if m.index_send.level ≠ m.level_face_curr then
        [Event.level_mismatch m.index_send.level m.level_face_curr] else []),
      e.isPutLevel = false ∧ e.isSendLevelCall = false ∧ e.isAssertFailure = false := by
  intro e he
  split_ifs at he
  · simp only [List.mem_singleton] at he; subst he; exact ⟨rfl, rfl, rfl⟩
  · simp at he

/-- C1 (monotone negotiation). On a leaf, `p_adapt_recv_level` never lowers
`level_next_`, whatever the message; the locally computed `level_next`, when
it differs from `level_next_`, is strictly greater, and no `ASSERT2` failure
is ever emitted. -/
theorem p_adapt_recv_level_monotone (T : Topology) (b : Block) (m : Msg)
    (hleaf : b.is_leaf = true) :
    b.level_next_ ≤ (p_adapt_recv_level T b m).1.level_next_ ∧
    (level_next_local b m ≠ b.level_next_ → level_next_local b m > b.level_next_) ∧
    (∀ e ∈ (p_adapt_recv_level T b m).2, e.isAssertFailure = false) := by
  have hge := level_next_local_ge b m
  refine ⟨recv_level_mono T b m, fun hne => by omega, ?_⟩
  by_cases hs : b.face_level_last_ (m.ic3, m.if3) > m.level_face_new
  · rw [recv_level_skip T b m hs]
    exact fun e he => (ev0_events m e he).2.2
  · rw [recv_level_leaf_events T b m hleaf hs]
    intro e he
    simp only [List.mem_append] at he
    rcases he with (he | he) | he
    · exact (ev0_events m e he).2.2
    · exact (adapt_recv_dispatch_events T _ m e he).2.2
    · split_ifs at he
      · simp at he
      · simp only [List.mem_cons] at he
        rcases he with he | he
        · subst he; rfl
        · exact (adapt_send_level_events T _ e he).2

theorem face_level_last_update_idem (b : Block) (m : Msg) (KF : Int3 → Bool)
    (KC : Int3 × Int3 → Bool) (v x y : Int) :
    ({ paint KF KC v (face_level_last_update
        { paint KF KC v (face_level_last_update b m) with level_next_ := x } m) with
        level_next_ := y } : Block)
      = { paint KF KC v (face_level_last_update b m) with level_next_ := y } := by
  cases b
  simp only [paint, face_level_last_update, Block.mk.injEq, true_and, and_true]
  refine ⟨?_, ?_, ?_⟩ <;> funext k <;> split <;> rfl

/-- C2 (idempotency). On a leaf, delivering the same message to
`p_adapt_recv_level` twice in a row leaves the block exactly as after one
delivery, and the second delivery neither calls `adapt_send_level` nor sends a
`PUT_LEVEL` message; this covers a message that is dropped as well as one that
is accepted and meets an equal stored value when redelivered. -/
theorem p_adapt_recv_level_idempotent (T : Topology) (b : Block) (m : Msg)
    (hleaf : b.is_leaf = true) :
    (p_adapt_recv_level T (p_adapt_recv_level T b m).1 m).1 = (p_adapt_recv_level T b m).1 ∧
    (∀ e ∈ (p_adapt_recv_level T (p_adapt_recv_level T b m).1 m).2,
      e.isSendLevelCall = false ∧ e.isPutLevel = false) := by
  by_cases hs : b.face_level_last_ (m.ic3, m.if3) > m.level_face_new
  · rw [recv_level_skip T b m hs]
    simp only []
    rw [recv_level_skip T b m hs]
    exact ⟨rfl, fun e he => ⟨(ev0_events m e he).2.1, (ev0_events m e he).1⟩⟩
  · obtain ⟨KF, KC, h⟩ := recv_level_leaf_eq T b.index_ b.rank m
    have h1 := h b rfl rfl hleaf hs
    have hs2 : ¬ ((p_adapt_recv_level T b m).1.face_level_last_ (m.ic3, m.if3)
        > m.level_face_new) := by
      rw [h1]; simp [paint, face_level_last_update]
    have hleaf2 : (p_adapt_recv_level T b m).1.is_leaf_ = true := by rw [h1]; exact hleaf
    have hi2 : (p_adapt_recv_level T b m).1.index_ = b.index_ := by rw [h1]; rfl
    have hr2 : (p_adapt_recv_level T b m).1.rank = b.rank := by rw [h1]; rfl
    have hl2 : (p_adapt_recv_level T b m).1.level_next_ = level_next_local b m := by
      rw [h1]
    have hidem := level_next_local_idem b (p_adapt_recv_level T b m).1 m hi2 hl2
    have h2 := h (p_adapt_recv_level T b m).1 hi2 hr2 hleaf2 hs2
    constructor
    · rw [h2, hidem]
      nth_rewrite 1 [h1]
      rw [face_level_last_update_idem, ← h1]
    · rw [recv_level_leaf_events T _ m hleaf2 hs2]
      intro e he
      simp only [List.mem_append] at he
      rcases he with (he | he) | he
      · exact ⟨(ev0_events m e he).2.1, (ev0_events m e he).1⟩
      · have := adapt_recv_dispatch_events T _ m e he
        exact ⟨this.2.1, this.1⟩
      · rw [hidem, hl2] at he
        simp at he

/-- C3 (filter). `p_adapt_recv_level` drops a message exactly when the stored
`face_level_last` of its `(ic, f)` key is strictly greater than `lvl_new`:
then the block is unchanged and nothing is sent; otherwise, equality included,
that entry becomes `lvl_new` and every other entry of `face_level_last` keeps
its value. -/
theorem p_adapt_recv_level_filter (T : Topology) (b : Block) (m : Msg) :
    (b.face_level_last_ (m.ic3, m.if3) > m.level_face_new →
      (p_adapt_recv_level T b m).1 = b ∧
      ∀ e ∈ (p_adapt_recv_level T b m).2, e.isPutLevel = false ∧ e.isSendLevelCall = false) ∧
    (¬ (b.face_level_last_ (m.ic3, m.if3) > m.level_face_new) →
      (p_adapt_recv_level T b m).1.face_level_last_ (m.ic3, m.if3) = m.level_face_new ∧
      ∀ k, k ≠ (m.ic3, m.if3) →
        (p_adapt_recv_level T b m).1.face_level_last_ k = b.face_level_last_ k) := by
  constructor
  · intro hs
    rw [recv_level_skip T b m hs]
    exact ⟨rfl, fun e he => ⟨(ev0_events m e he).1, (ev0_events m e he).2.1⟩⟩
  · intro hs
    have key : (p_adapt_recv_level T b m).1.face_level_last_
        = (face_level_last_update b m).face_level_last_ := by
      cases hleaf : b.is_leaf_
      · rw [recv_level_nonleaf T b m hs hleaf]
      · obtain ⟨KF, KC, h⟩ := recv_level_leaf_eq T b.index_ b.rank m
        rw [h b rfl rfl hleaf hs]
        rfl
    rw [key]
    constructor
    · simp [face_level_last_update]
    · intro k hk
      simp [face_level_last_update, hk]

/-- C4 (level update rule). On a leaf, for a message that passes the filter,
the new `level_next_` is `max(base, lvl_new - 1)` with the base of the
specification (`level_next_spec`), and `adapt_send_level` is called once if
this value differs from the old `level_next_` and not at all otherwise. -/
theorem p_adapt_recv_level_level_next (T : Topology) (b : Block) (m : Msg)
    (hleaf : b.is_leaf = true)
    (hacc : ¬ (b.face_level_last_ (m.ic3, m.if3) > m.level_face_new)) :
    (p_adapt_recv_level T b m).1.level_next_ = level_next_spec b m ∧
    (p_adapt_recv_level T b m).2.countP Event.isSendLevelCall =
      (if level_next_spec b m ≠ b.level_next_ then 1 else 0) := by
  obtain ⟨KF, KC, h⟩ := recv_level_leaf_eq T b.index_ b.rank m
  constructor
  · rw [h b rfl rfl hleaf hacc, ← level_next_local_eq_spec]
  · rw [recv_level_leaf_events T b m hleaf hacc, ← level_next_local_eq_spec]
    have h0 : List.countP Event.isSendLevelCall
        (if m.index_send.level ≠ m.level_face_curr then
          [Event.level_mismatch m.index_send.level m.level_face_curr] else []) = 0 := by
      rw [List.countP_eq_zero]
      intro e he; simp [(ev0_events m e he).2.1]
    have h1 : List.countP Event.isSendLevelCall
        (adapt_recv_dispatch T (face_level_last_update b m) m).2 = 0 := by
      rw [List.countP_eq_zero]
      intro e he; simp [(adapt_recv_dispatch_events T _ m e he).2.1]
    have h2 : ∀ b', List.countP Event.isSendLevelCall (adapt_send_level T b') = 0 := by
      intro b'
      rw [List.countP_eq_zero]
      intro e he; simp [(adapt_send_level_events T b' e he).1]
    rw [List.countP_append, List.countP_append, h0, h1]
    by_cases hne : level_next_local b m = b.level_next_
    · simp [hne]
    · simp [hne, List.countP_cons, h2, Event.isSendLevelCall]

theorem foldl_invariant {α β : Type} (P : β → Prop) (f : β → α → β) (l : List α) :
    ∀ init : β, P init → (∀ acc x, P acc → P (f acc x)) → P (l.foldl f init) := by
  induction l with
  | nil => intro init h0 _; exact h0
  | cons x xs ih => intro init h0 hstep; exact ih (f init x) (hstep init x h0) hstep

theorem adapt_refine_frame (T : Topology) (b : Block) :
    (adapt_refine_ T b).1.index_ = b.index_ ∧
    (adapt_refine_ T b).1.level_next_ = b.level_next_ ∧
    ∀ e ∈ (adapt_refine_ T b).2, e.isCoarsenCall = false ∧ e.isRefineCall = false := by
  unfold adapt_refine_
  simp only []
  refine foldl_invariant
    (fun acc : Block × List Event => acc.1.index_ = b.index_ ∧ acc.1.level_next_ = b.level_next_ ∧
      ∀ e ∈ acc.2, e.isCoarsenCall = false ∧ e.isRefineCall = false) _ _ _ ?_ ?_
  · exact ⟨rfl, rfl, fun e he => by simp at he⟩
  · intro acc x ⟨h1, h2, h3⟩
    split_ifs
    · refine ⟨h1, h2, fun e he => ?_⟩
      simp only [List.mem_append, List.mem_singleton] at he
      rcases he with he | he
      · exact h3 e he
      · subst he; exact ⟨rfl, rfl⟩
    · exact ⟨h1, h2, h3⟩

theorem adapt_coarsen_frame (b : Block) :
    (adapt_coarsen_ b).1 = b ∧
    ∀ e ∈ (adapt_coarsen_ b).2, e.isCoarsenCall = false ∧ e.isRefineCall = false := by
  unfold adapt_coarsen_
  simp only []
  split_ifs
  · refine ⟨rfl, fun e he => ?_⟩
    simp only [List.mem_singleton] at he
    subst he; exact ⟨rfl, rfl⟩
  · exact ⟨rfl, fun e he => by simp at he⟩

theorem countP_zero_of {p : Event → Bool} {l : List Event} (h : ∀ e ∈ l, p e = false) :
    l.countP p = 0 := by
  rw [List.countP_eq_zero]
  intro e he; simp [h e he]

theorem adapt_next_events (T : Topology) (b : Block) :
    (adapt_next_ T b).2 =
      (if b.is_leaf = true ∧ b.level < b.level_next_ then
          Event.call_adapt_refine :: (adapt_refine_ T b.update_levels_).2
        else [])
      ++ (if b.is_leaf = true ∧ b.level > b.level_next_ then
          Event.call_adapt_coarsen :: (adapt_coarsen_ b.update_levels_).2
        else [])
      ++ [Event.control_sync Phase.phase_adapt_end SyncKind.quiescence] := by
  have hu1 : b.update_levels_.is_leaf = b.is_leaf := rfl
  have hu2 : b.update_levels_.level = b.level := rfl
  have hu3 : b.update_levels_.level_next_ = b.level_next_ := rfl
  obtain ⟨hr1, hr2, -⟩ := adapt_refine_frame T b.update_levels_
  have hrl : (adapt_refine_ T b.update_levels_).1.level = b.level := by
    rw [Block.level, hr1]; rfl
  rw [hu3] at hr2
  unfold adapt_next_
  simp only [hu1, hu2, hu3]
  cases hleaf : b.is_leaf
  · simp
  · by_cases hlt : b.level < b.level_next_
    · have hngt : ¬ (b.level > b.level_next_) := by omega
      simp only [if_true, hlt, hrl, hr2, hngt, if_false, true_and, and_self, and_false,
        List.append_nil]
    · by_cases hgt : b.level > b.level_next_
      · simp only [if_true, hlt, hu2, hu3, hgt, if_false, true_and, and_self, and_false,
          List.nil_append]
      · simp only [if_true, hlt, hu2, hu3, hgt, if_false, true_and, and_self, and_false,
          List.nil_append]

/-- C9 (commit step). `adapt_next_` calls `adapt_refine_` once if the block is
a leaf with `level < level_next_` and not at all otherwise, calls
`adapt_coarsen_` once if the block is a leaf with `level > level_next_` and
not at all otherwise; so it never calls both, and calls neither on a block
that is not a leaf or whose `level` equals `level_next_`. -/
theorem adapt_next_calls (T : Topology) (b : Block) :
    (adapt_next_ T b).2.countP Event.isRefineCall =
      (if b.is_leaf = true ∧ b.level < b.level_next_ then 1 else 0) ∧
    (adapt_next_ T b).2.countP Event.isCoarsenCall =
      (if b.is_leaf = true ∧ b.level > b.level_next_ then 1 else 0) ∧
    (adapt_next_ T b).2.countP Event.isRefineCall
      + (adapt_next_ T b).2.countP Event.isCoarsenCall ≤ 1 := by
  obtain ⟨-, -, hr3⟩ := adapt_refine_frame T b.update_levels_
  have hrc := countP_zero_of (fun e he => (hr3 e he).1)
  have hrr := countP_zero_of (fun e he => (hr3 e he).2)
  have hcc := countP_zero_of (fun e he => ((adapt_coarsen_frame b.update_levels_).2 e he).1)
  have hcr := countP_zero_of (fun e he => ((adapt_coarsen_frame b.update_levels_).2 e he).2)
  rw [adapt_next_events]
  simp only [List.countP_append]
  by_cases h1 : b.is_leaf = true ∧ b.level < b.level_next_
  · have h2 : ¬ (b.is_leaf = true ∧ b.level > b.level_next_) := by
      intro h; omega
    simp only [if_pos h1, if_neg h2]
    simp [List.countP_cons, hrc, hrr, Event.isRefineCall, Event.isCoarsenCall]
  · by_cases h2 : b.is_leaf = true ∧ b.level > b.level_next_
    · simp only [if_neg h1, if_pos h2]
      simp [List.countP_cons, hcc, hcr, Event.isRefineCall, Event.isCoarsenCall]
    · simp only [if_neg h1, if_neg h2]
      simp [List.countP_cons, Event.isRefineCall, Event.isCoarsenCall]

theorem adapt_next_no_coarsen (T : Topology) (b : Block) (h : b.level ≤ b.level_next_) :
    ∀ e ∈ (adapt_next_ T b).2, e.isCoarsenCall = false := by
  obtain ⟨-, -, hr3⟩ := adapt_refine_frame T b.update_levels_
  have h2 : ¬ (b.is_leaf = true ∧ b.level > b.level_next_) := by
    intro h'; omega
  rw [adapt_next_events]
  intro e he
  simp only [h2, if_false, List.append_nil, List.mem_append, List.mem_singleton] at he
  rcases he with he | he
  · split_ifs at he
    · simp only [List.mem_cons] at he
      rcases he with he | he
      · subst he; rfl
      · exact (hr3 e he).1
    · simp at he
  · subst he; rfl

theorem level_nonneg (b : Block) : 0 ≤ b.level := by
  unfold Block.level Index.level
  exact Int.natCast_nonneg _

theorem adapt_compute_frame (cfg : Config) (criteria : List Int) (b : Block) (L : Int) :
    (adapt_compute_desired_level_ cfg criteria b L).2.index_ = b.index_ ∧
    (adapt_compute_desired_level_ cfg criteria b L).2.is_leaf_ = b.is_leaf_ := by
  unfold adapt_compute_desired_level_
  simp only []
  split_ifs <;> exact ⟨rfl, rfl⟩

theorem foldl_max_spec (cs : List Int) : ∀ a0 : Int,
    a0 ≤ cs.foldl (fun adapt r => max adapt r) a0 ∧
    (∀ c ∈ cs, c ≤ cs.foldl (fun adapt r => max adapt r) a0) ∧
    (cs.foldl (fun adapt r => max adapt r) a0 = a0 ∨
      cs.foldl (fun adapt r => max adapt r) a0 ∈ cs) := by
  induction cs with
  | nil => intro a0; simp
  | cons c cs ih =>
    intro a0
    obtain ⟨h1, h2, h3⟩ := ih (max a0 c)
    simp only [List.foldl_cons, List.mem_cons, forall_eq_or_imp]
    refine ⟨le_trans (le_max_left a0 c) h1, ⟨le_trans (le_max_right a0 c) h1, h2⟩, ?_⟩
    rcases h3 with h3 | h3
    · rw [h3]
      rcases max_choice a0 c with h | h
      · left; exact h
      · right; left; exact h
    · right; right; exact h3

/-- C5 (cancelled coarsening stays cancelled). A leaf that wants to coarsen
and accepts a message from a nephew, or from a sibling whose `lvl_new` exceeds
the leaf's `level_next_`, has `level_next_ >= level` afterwards, keeps it
through any further deliveries, and `adapt_next_` then does not call
`adapt_coarsen_`.  Sibling and nephew are blocks below a common parent: the
receiver is at level 1 or more, a sibling at level 1 or more with the same
parent, a nephew at level 2 or more with that parent as grandparent. -/
theorem coarsening_cancelled (T : Topology) (b : Block) (m : Msg) (ms : List Msg)
    (hleaf : b.is_leaf = true) (hco : b.level_next_ < b.level)
    (hacc : ¬ (b.face_level_last_ (m.ic3, m.if3) > m.level_face_new))
    (hrel : (b.level ≥ 1 ∧ m.index_send.level ≥ 2 ∧
        m.index_send.index_parent.index_parent = b.index_.index_parent) ∨
      (b.level ≥ 1 ∧ m.index_send.level ≥ 1 ∧
        m.index_send.index_parent = b.index_.index_parent ∧
        m.level_face_new > b.level_next_)) :
    (p_adapt_recv_level T b m).1.level ≤ (p_adapt_recv_level T b m).1.level_next_ ∧
    (deliver T (p_adapt_recv_level T b m).1 ms).level
      ≤ (deliver T (p_adapt_recv_level T b m).1 ms).level_next_ ∧
    ∀ e ∈ (adapt_next_ T (deliver T (p_adapt_recv_level T b m).1 ms)).2,
      e.isCoarsenCall = false := by
  obtain ⟨KF, KC, h⟩ := recv_level_leaf_eq T b.index_ b.rank m
  have h1 := h b rfl rfl hleaf hacc
  have hi : (p_adapt_recv_level T b m).1.index_ = b.index_ := (recv_level_frame T b m).1
  have hl : (p_adapt_recv_level T b m).1.level = b.level := by rw [Block.level, hi]; rfl
  have hn : (p_adapt_recv_level T b m).1.level_next_ = level_next_spec b m := by
    rw [h1, ← level_next_local_eq_spec]
  have hbase : b.level ≤ level_next_spec b m := by
    unfold level_next_spec
    simp only []
    have hc : b.level_next_ < b.level ∧
        ((b.level ≥ 1 ∧ m.index_send.level ≥ 2 ∧
            m.index_send.index_parent.index_parent = b.index_.index_parent) ∨
          ((b.level ≥ 1 ∧ m.index_send.level ≥ 1 ∧
            m.index_send.index_parent = b.index_.index_parent) ∧
            m.level_face_new > b.level_next_)) := by
      refine ⟨hco, ?_⟩
      rcases hrel with hr | hr
      · left; exact hr
      · right; exact ⟨⟨hr.1, hr.2.1, hr.2.2.1⟩, hr.2.2.2⟩
    rw [if_pos hc]
    exact le_max_left _ _
  obtain ⟨d1, -, d3⟩ := deliver_frame T ms (p_adapt_recv_level T b m).1
  have hdl : (deliver T (p_adapt_recv_level T b m).1 ms).level = b.level := by
    rw [Block.level, d1, hi]; rfl
  have hfin : (deliver T (p_adapt_recv_level T b m).1 ms).level
      ≤ (deliver T (p_adapt_recv_level T b m).1 ms).level_next_ := by
    rw [hdl]; omega
  refine ⟨by rw [hl, hn]; exact hbase, hfin, adapt_next_no_coarsen T _ hfin⟩

/-- C6 (first-cycle rule). On the initial cycle, the desired level of a leaf
is at least its level whatever the criteria return; after `adapt_begin_` and
any sequence of `p_adapt_recv_level` deliveries `level_next_` is still at
least the level, and `adapt_next_` does not call `adapt_coarsen_`. -/
theorem no_coarsen_on_initial_cycle (T : Topology) (cfg : Config) (criteria : List Int)
    (b : Block) (ms : List Msg) (hleaf : b.is_leaf = true)
    (hfirst : b.cycle = cfg.initial_cycle) :
    (∀ level_maximum : Int,
      b.level ≤ (adapt_compute_desired_level_ cfg criteria b level_maximum).1) ∧
    b.level ≤ (deliver T (adapt_begin_ cfg criteria b).1 ms).level_next_ ∧
    ∀ e ∈ (adapt_next_ T (deliver T (adapt_begin_ cfg criteria b).1 ms)).2,
      e.isCoarsenCall = false := by
  have hdes : ∀ level_maximum : Int,
      b.level ≤ (adapt_compute_desired_level_ cfg criteria b level_maximum).1 := by
    intro L
    unfold adapt_compute_desired_level_
    simp only [hleaf, Bool.not_true, Bool.false_eq_true, if_false, hfirst, decide_True,
      and_false, Bool.true_eq_false]
    split_ifs <;> simp
  have hbi : (adapt_begin_ cfg criteria b).1.index_ = b.index_ :=
    (adapt_compute_frame cfg criteria b cfg.mesh_max_level).1
  have hbn : b.level ≤ (adapt_begin_ cfg criteria b).1.level_next_ := hdes cfg.mesh_max_level
  obtain ⟨d1, -, d3⟩ := deliver_frame T ms (adapt_begin_ cfg criteria b).1
  have hdl : (deliver T (adapt_begin_ cfg criteria b).1 ms).level = b.level := by
    rw [Block.level, d1, hbi]; rfl
  have hfin : b.level ≤ (deliver T (adapt_begin_ cfg criteria b).1 ms).level_next_ := by omega
  exact ⟨hdes, hfin, adapt_next_no_coarsen T _ (by rw [hdl]; exact hfin)⟩

/-- C7 (level bounds). For a leaf with `level <= L_max` (its level is never
negative) and any criteria outputs, the desired level `d` satisfies
`0 <= d <= L_max` and `|d - level| <= 1`; at `level = L_max` it is not
`level + 1` and at `level = 0` it is not `level - 1`. -/
theorem desired_level_bounds (cfg : Config) (criteria : List Int) (b : Block)
    (level_maximum : Int) (hleaf : b.is_leaf = true) (hmax : b.level ≤ level_maximum) :
    0 ≤ b.level ∧
    0 ≤ (adapt_compute_desired_level_ cfg criteria b level_maximum).1 ∧
    (adapt_compute_desired_level_ cfg criteria b level_maximum).1 ≤ level_maximum ∧
    |(adapt_compute_desired_level_ cfg criteria b level_maximum).1 - b.level| ≤ 1 ∧
    (b.level = level_maximum →
      (adapt_compute_desired_level_ cfg criteria b level_maximum).1 ≠ b.level + 1) ∧
    (b.level = 0 →
      (adapt_compute_desired_level_ cfg criteria b level_maximum).1 ≠ b.level - 1) := by
  have h0 := level_nonneg b
  unfold adapt_compute_desired_level_
  simp only [hleaf, Bool.not_true, Bool.false_eq_true, if_false]
  split_ifs with h1 h2
  · refine ⟨h0, by omega, by omega, ?_, by omega, by omega⟩
    rw [abs_le]; constructor <;> omega
  · refine ⟨h0, by omega, by omega, ?_, by omega, by omega⟩
    rw [abs_le]; constructor <;> omega
  · refine ⟨h0, by omega, by omega, ?_, by omega, by omega⟩
    rw [abs_le]; constructor <;> omega

/-- C8 (combination of the criteria). For a leaf, the desired level is decided
by the maximum `a` of `adapt_unknown` and all criteria outputs (so `a` is
`adapt_unknown` when there are none): it is `level + 1` iff `a` is
`adapt_refine` and `level < L_max`, `level - 1` iff `a` is `adapt_coarsen`,
`level > 0` and the cycle is not the initial cycle, and `level` otherwise.
Hence one refine vote among outputs of the enumeration overrides all coarsen
votes, and no criteria give `level`. -/
theorem desired_level_rule (cfg : Config) (criteria : List Int) (b : Block)
    (level_maximum : Int) (hleaf : b.is_leaf = true) :
    (∃ a : Int, adapt_unknown ≤ a ∧ (∀ c ∈ criteria, c ≤ a) ∧
      (a = adapt_unknown ∨ a ∈ criteria) ∧
      ((adapt_compute_desired_level_ cfg criteria b level_maximum).1 = b.level + 1 ↔
        a = adapt_refine ∧ b.level < level_maximum) ∧
      ((adapt_compute_desired_level_ cfg criteria b level_maximum).1 = b.level - 1 ↔
        a = adapt_coarsen ∧ b.level > 0 ∧ b.cycle ≠ cfg.initial_cycle) ∧
      (¬ (a = adapt_refine ∧ b.level < level_maximum) →
        ¬ (a = adapt_coarsen ∧ b.level > 0 ∧ b.cycle ≠ cfg.initial_cycle) →
        (adapt_compute_desired_level_ cfg criteria b level_maximum).1 = b.level)) ∧
    (adapt_refine ∈ criteria → (∀ c ∈ criteria, c ≤ adapt_refine) →
      (adapt_compute_desired_level_ cfg criteria b level_maximum).1 =
        if b.level < level_maximum then b.level + 1 else b.level) ∧
    (criteria = [] →
      (adapt_compute_desired_level_ cfg criteria b level_maximum).1 = b.level) := by
  obtain ⟨m1, m2, m3⟩ := foldl_max_spec criteria adapt_unknown
  have hcr : adapt_coarsen ≠ adapt_refine := by decide
  have key : (adapt_compute_desired_level_ cfg criteria b level_maximum).1 =
      if criteria.foldl (fun adapt r => max adapt r) adapt_unknown = adapt_coarsen ∧ b.level > 0 ∧
          b.cycle ≠ cfg.initial_cycle then b.level - 1
      else if criteria.foldl (fun adapt r => max adapt r) adapt_unknown = adapt_refine ∧
          b.level < level_maximum then b.level + 1
      else b.level := by
    unfold adapt_compute_desired_level_
    simp only [hleaf, Bool.not_true, Bool.false_eq_true, if_false, decide_eq_false_iff_not]
    have e : (cfg.initial_cycle = b.cycle) = (b.cycle = cfg.initial_cycle) :=
      propext ⟨Eq.symm, Eq.symm⟩
    simp only [e, ne_eq]
    split_ifs <;> rfl
  refine ⟨⟨_, m1, m2, m3, ?_, ?_, ?_⟩, ?_, ?_⟩
  · rw [key]
    split_ifs with h1 h2
    · constructor
      · intro h; omega
      · intro h; exact absurd (h1.1.symm.trans h.1) hcr
    · simp [h2]
    · constructor
      · intro h; omega
      · intro h; exact absurd h h2
  · rw [key]
    split_ifs with h1 h2
    · simp [h1]
    · constructor
      · intro h; omega
      · intro h; exact absurd h h1
    · constructor
      · intro h; omega
      · intro h; exact absurd h h1
  · intro h2 h1
    rw [key, if_neg h1, if_neg h2]
  · intro hmem hle
    have ha : criteria.foldl (fun adapt r => max adapt r) adapt_unknown = adapt_refine := by
      apply le_antisymm
      · rcases m3 with h | h
        · rw [h]; decide
        · exact hle _ h
      · exact m2 _ hmem
    rw [key, ha]
    have : ¬ (adapt_refine = adapt_coarsen ∧ b.level > 0 ∧ b.cycle ≠ cfg.initial_cycle) :=
      fun h => hcr h.1.symm
    rw [if_neg this]
    simp
  · intro hnil
    subst hnil
    rw [key]
    simp [adapt_unknown, adapt_coarsen, adapt_refine]

/-- C10, as amended. `do_adapt_` returns true iff `mesh_adapt_interval` is not
zero and divides `cycle`, except at `cycle = INT_MIN` with interval `-1`,
where the remainder overflows and the function has no value; everywhere else
it returns a value, false when the interval is 0 (the remainder is then not
taken) or does not divide `cycle`. -/
theorem do_adapt_nonzero_rule (cfg : Config) (b : Block) :
    (do_adapt_ cfg b = none ↔ b.cycle_ = INT_MIN ∧ cfg.mesh_adapt_interval = -1) ∧
    (do_adapt_ cfg b = some true ↔
      cfg.mesh_adapt_interval ≠ 0 ∧ b.cycle_ % cfg.mesh_adapt_interval = 0 ∧
      ¬ (b.cycle_ = INT_MIN ∧ cfg.mesh_adapt_interval = -1)) ∧
    (do_adapt_ cfg b = some false ↔
      cfg.mesh_adapt_interval = 0 ∨ b.cycle_ % cfg.mesh_adapt_interval ≠ 0) ∧
    (cfg.mesh_adapt_interval = 0 → do_adapt_ cfg b = some false) := by
  unfold do_adapt_ c_rem
  by_cases h : cfg.mesh_adapt_interval = 0
  · have hne : ¬ (cfg.mesh_adapt_interval = -1) := by omega
    simp [h]
  · have e : Int.tmod b.cycle_ cfg.mesh_adapt_interval = 0 ↔
        b.cycle_ % cfg.mesh_adapt_interval = 0 :=
      ⟨fun h1 => Int.emod_eq_zero_of_dvd (Int.dvd_of_tmod_eq_zero h1),
       fun h1 => Int.tmod_eq_zero_of_dvd (Int.dvd_of_emod_eq_zero h1)⟩
    by_cases hov : b.cycle_ = INT_MIN ∧ cfg.mesh_adapt_interval = -1
    · have hz : b.cycle_ % cfg.mesh_adapt_interval = 0 := by
        rw [hov.2]; exact Int.emod_eq_zero_of_dvd ⟨-b.cycle_, by ring⟩
      simp [h, hov, hz]
    · simp only [ne_eq, h, not_false_eq_true, if_true, if_false, hov, Option.map_some',
        Option.some.injEq, decide_eq_true_eq, decide_eq_false_iff_not, true_and, and_true,
        false_or, false_implies, e]
      simp

/-- C10, the claim as stated fails: with interval -2 and cycle 4 `do_adapt_`
returns true although the interval is not positive. -/
theorem do_adapt_negative_interval :
    do_adapt_ ⟨0, 0, -2⟩ { index_ := ⟨0, []⟩, cycle_ := 4 } = some true ∧
    ¬ (do_adapt_ ⟨0, 0, -2⟩ { index_ := ⟨0, []⟩, cycle_ := 4 } = some true ↔
        ((-2 : Int) > 0 ∧ (4 : Int) % (-2) = 0)) := by
  decide

/-! ## The theorems at concrete blocks -/

/-- C1 at `sampleLeaf` receiving `sampleMsg`. -/
theorem p_adapt_recv_level_monotone_witness :
    sampleLeaf.is_leaf = true ∧
    sampleLeaf.level_next_ ≤
      (p_adapt_recv_level (periodicTopology 2) sampleLeaf sampleMsg).1.level_next_ ∧
    (level_next_local sampleLeaf sampleMsg ≠ sampleLeaf.level_next_ →
      level_next_local sampleLeaf sampleMsg > sampleLeaf.level_next_) ∧
    (∀ e ∈ (p_adapt_recv_level (periodicTopology 2) sampleLeaf sampleMsg).2,
      e.isAssertFailure = false) :=
  ⟨rfl, p_adapt_recv_level_monotone (periodicTopology 2) sampleLeaf sampleMsg rfl⟩

/-- C2 at `sampleLeaf` receiving `sampleMsg` twice. -/
theorem p_adapt_recv_level_idempotent_witness :
    sampleLeaf.is_leaf = true ∧
    (p_adapt_recv_level (periodicTopology 2)
        (p_adapt_recv_level (periodicTopology 2) sampleLeaf sampleMsg).1 sampleMsg).1
      = (p_adapt_recv_level (periodicTopology 2) sampleLeaf sampleMsg).1 ∧
    (∀ e ∈ (p_adapt_recv_level (periodicTopology 2)
        (p_adapt_recv_level (periodicTopology 2) sampleLeaf sampleMsg).1 sampleMsg).2,
      e.isSendLevelCall = false ∧ e.isPutLevel = false) :=
  ⟨rfl, p_adapt_recv_level_idempotent (periodicTopology 2) sampleLeaf sampleMsg rfl⟩

/-- C3 at `sampleLeaf` receiving `sampleMsg`, which passes the filter. -/
theorem p_adapt_recv_level_filter_witness :
    ¬ (sampleLeaf.face_level_last_ (sampleMsg.ic3, sampleMsg.if3) > sampleMsg.level_face_new) ∧
    (p_adapt_recv_level (periodicTopology 2) sampleLeaf sampleMsg).1.face_level_last_
      (sampleMsg.ic3, sampleMsg.if3) = sampleMsg.level_face_new ∧
    (∀ k, k ≠ (sampleMsg.ic3, sampleMsg.if3) →
      (p_adapt_recv_level (periodicTopology 2) sampleLeaf sampleMsg).1.face_level_last_ k
        = sampleLeaf.face_level_last_ k) :=
  ⟨by decide,
   (p_adapt_recv_level_filter (periodicTopology 2) sampleLeaf sampleMsg).2 (by decide)⟩

/-- C4 at `sampleLeaf` receiving `sampleMsg`. -/
theorem p_adapt_recv_level_level_next_witness :
    sampleLeaf.is_leaf = true ∧
    ¬ (sampleLeaf.face_level_last_ (sampleMsg.ic3, sampleMsg.if3) > sampleMsg.level_face_new) ∧
    (p_adapt_recv_level (periodicTopology 2) sampleLeaf sampleMsg).1.level_next_
      = level_next_spec sampleLeaf sampleMsg ∧
    (p_adapt_recv_level (periodicTopology 2) sampleLeaf sampleMsg).2.countP
        Event.isSendLevelCall
      = (if level_next_spec sampleLeaf sampleMsg ≠ sampleLeaf.level_next_ then 1 else 0) :=
  ⟨rfl, by decide,
   p_adapt_recv_level_level_next (periodicTopology 2) sampleLeaf sampleMsg rfl (by decide)⟩

/-- C5 at `sampleLeaf`, whose sibling `sampleMsg.index_send` stays at level 2, followed by the delivery of `sampleNephewMsg`. -/
theorem coarsening_cancelled_witness :
    sampleLeaf.is_leaf = true ∧ sampleLeaf.level_next_ < sampleLeaf.level ∧
    (sampleLeaf.level ≥ 1 ∧ sampleMsg.index_send.level ≥ 1 ∧
      sampleMsg.index_send.index_parent = sampleLeaf.index_.index_parent ∧
      sampleMsg.level_face_new > sampleLeaf.level_next_) ∧
    (p_adapt_recv_level (periodicTopology 2) sampleLeaf sampleMsg).1.level
      ≤ (p_adapt_recv_level (periodicTopology 2) sampleLeaf sampleMsg).1.level_next_ ∧
    (deliver (periodicTopology 2)
        (p_adapt_recv_level (periodicTopology 2) sampleLeaf sampleMsg).1 [sampleNephewMsg]).level
      ≤ (deliver (periodicTopology 2)
        (p_adapt_recv_level (periodicTopology 2) sampleLeaf sampleMsg).1
          [sampleNephewMsg]).level_next_ ∧
    ∀ e ∈ (adapt_next_ (periodicTopology 2) (deliver (periodicTopology 2)
        (p_adapt_recv_level (periodicTopology 2) sampleLeaf sampleMsg).1 [sampleNephewMsg])).2,
      e.isCoarsenCall = false :=
  ⟨rfl, by decide, by decide,
   coarsening_cancelled (periodicTopology 2) sampleLeaf sampleMsg [sampleNephewMsg] rfl
     (by decide) (by decide) (Or.inr (by decide))⟩

/-- C6 at `sampleLeaf` on the initial cycle of `sampleConfig`, with one coarsen vote. -/
theorem no_coarsen_on_initial_cycle_witness :
    sampleLeaf.is_leaf = true ∧ sampleLeaf.cycle = sampleConfig.initial_cycle ∧
    (∀ level_maximum : Int, sampleLeaf.level ≤
      (adapt_compute_desired_level_ sampleConfig [adapt_coarsen] sampleLeaf level_maximum).1) ∧
    sampleLeaf.level ≤ (deliver (periodicTopology 2)
      (adapt_begin_ sampleConfig [adapt_coarsen] sampleLeaf).1 [sampleMsg]).level_next_ ∧
    ∀ e ∈ (adapt_next_ (periodicTopology 2) (deliver (periodicTopology 2)
        (adapt_begin_ sampleConfig [adapt_coarsen] sampleLeaf).1 [sampleMsg])).2,
      e.isCoarsenCall = false :=
  ⟨rfl, rfl,
   no_coarsen_on_initial_cycle (periodicTopology 2) sampleConfig [adapt_coarsen] sampleLeaf
     [sampleMsg] rfl rfl⟩

/-- C7 at `sampleLeaf` with `L_max = 3` and one refine vote. -/
theorem desired_level_bounds_witness :
    sampleLeaf.is_leaf = true ∧ sampleLeaf.level ≤ 3 ∧
    0 ≤ sampleLeaf.level ∧
    0 ≤ (adapt_compute_desired_level_ sampleConfig [adapt_refine] sampleLeaf 3).1 ∧
    (adapt_compute_desired_level_ sampleConfig [adapt_refine] sampleLeaf 3).1 ≤ 3 ∧
    |(adapt_compute_desired_level_ sampleConfig [adapt_refine] sampleLeaf 3).1
      - sampleLeaf.level| ≤ 1 ∧
    (sampleLeaf.level = 3 →
      (adapt_compute_desired_level_ sampleConfig [adapt_refine] sampleLeaf 3).1
        ≠ sampleLeaf.level + 1) ∧
    (sampleLeaf.level = 0 →
      (adapt_compute_desired_level_ sampleConfig [adapt_refine] sampleLeaf 3).1
        ≠ sampleLeaf.level - 1) :=
  ⟨rfl, by decide,
   desired_level_bounds sampleConfig [adapt_refine] sampleLeaf 3 rfl (by decide)⟩

/-- C8 at `sampleLeaf`: one refine vote among two coarsen votes. -/
theorem desired_level_rule_witness :
    sampleLeaf.is_leaf = true ∧
    adapt_refine ∈ [adapt_coarsen, adapt_refine, adapt_coarsen] ∧
    (∀ c ∈ [adapt_coarsen, adapt_refine, adapt_coarsen], c ≤ adapt_refine) ∧
    (adapt_compute_desired_level_ sampleConfig [adapt_coarsen, adapt_refine, adapt_coarsen]
        sampleLeaf 3).1 = (if sampleLeaf.level < 3 then sampleLeaf.level + 1 else sampleLeaf.level) :=
  ⟨rfl, by decide, by decide,
   (desired_level_rule sampleConfig [adapt_coarsen, adapt_refine, adapt_coarsen] sampleLeaf 3
     rfl).2.1 (by decide) (by decide)⟩

/-- C10 as amended, at interval 0, and at `cycle = INT_MIN` with interval `-1`. -/
theorem do_adapt_nonzero_rule_witness :
    ({ sampleConfig with mesh_adapt_interval := 0 } : Config).mesh_adapt_interval = 0 ∧
    do_adapt_ { sampleConfig with mesh_adapt_interval := 0 } sampleLeaf = some false ∧
    do_adapt_ { sampleConfig with mesh_adapt_interval := -1 }
      { sampleLeaf with cycle_ := INT_MIN } = none :=
  ⟨rfl,
   (do_adapt_nonzero_rule { sampleConfig with mesh_adapt_interval := 0 } sampleLeaf).2.2.2 rfl,
   (do_adapt_nonzero_rule { sampleConfig with mesh_adapt_interval := -1 }
     { sampleLeaf with cycle_ := INT_MIN }).1.mpr ⟨rfl, rfl⟩⟩

/-! ## The end of the phase, the fan-out and the refine and coarsen executors -/

theorem adapt_end_first_cycle (cfg : Config) (b : Block) (hdel : b.delete_ = false)
    (hfirst : b.cycle = cfg.initial_cycle) :
    (adapt_end_ cfg b).1.adapt_step_ = b.adapt_step_ + 1 ∧
    (adapt_end_ cfg b).1.cycle_ = b.cycle_ ∧
    (adapt_end_ cfg b).1.delete_ = false ∧
    (adapt_end_ cfg b).2.any (Event.isSyncTo Phase.phase_adapt_enter)
      = decide (b.adapt_step_ < cfg.mesh_max_level) ∧
    (adapt_end_ cfg b).2.any (Event.isSyncTo Phase.phase_adapt_exit)
      = decide (¬ b.adapt_step_ < cfg.mesh_max_level) := by
  have hc : cfg.initial_cycle = b.cycle_ := hfirst.symm
  unfold adapt_end_
  simp only [hdel, Bool.false_eq_true, if_false, Block.cycle, hc, decide_True, if_true]
  by_cases hlt : b.adapt_step_ < cfg.mesh_max_level
  · split_ifs <;> simp_all [Event.isSyncTo]
  · split_ifs <;> simp_all [Event.isSyncTo]

theorem adapt_end_other_cycle (cfg : Config) (b : Block) (hdel : b.delete_ = false)
    (hother : b.cycle ≠ cfg.initial_cycle) :
    (adapt_end_ cfg b).1.adapt_step_ = b.adapt_step_ ∧
    (adapt_end_ cfg b).2.any (Event.isSyncTo Phase.phase_adapt_enter) = false ∧
    (adapt_end_ cfg b).2.any (Event.isSyncTo Phase.phase_adapt_exit) = true := by
  have hc : ¬ cfg.initial_cycle = b.cycle_ := fun h => hother h.symm
  unfold adapt_end_
  simp only [hdel, Bool.false_eq_true, if_false, Block.cycle, hc, decide_False]
  split_ifs <;> simp [Event.isSyncTo]

theorem adapt_loop_count (cfg : Config) (phase : Block → Block)
    (hphase : ∀ b, (phase b).adapt_step_ = b.adapt_step_ ∧ (phase b).cycle_ = b.cycle_ ∧
      (phase b).delete_ = b.delete_) :
    ∀ (fuel : Nat) (b : Block), b.delete_ = false → b.cycle = cfg.initial_cycle →
      b.adapt_step_ ≤ cfg.mesh_max_level →
      (cfg.mesh_max_level - b.adapt_step_).toNat < fuel →
      adapt_loop cfg phase fuel b = some ((cfg.mesh_max_level - b.adapt_step_).toNat + 1) := by
  intro fuel
  induction fuel with
  | zero => intro b _ _ _ h; omega
  | succ fuel ih =>
    intro b hdel hfirst hle hfuel
    obtain ⟨p1, p2, p3⟩ := hphase b
    have hdel' : (phase b).delete_ = false := by rw [p3, hdel]
    have hfirst' : (phase b).cycle = cfg.initial_cycle := by
      rw [← hfirst]; exact p2
    obtain ⟨e1, e2, e3, e4, -⟩ := adapt_end_first_cycle cfg (phase b) hdel' hfirst'
    rw [p1] at e1 e4
    simp only [adapt_loop, e4]
    by_cases hlt : b.adapt_step_ < cfg.mesh_max_level
    · simp only [hlt, decide_True, if_true]
      have hcyc : (adapt_end_ cfg (phase b)).1.cycle = cfg.initial_cycle := by
        rw [← hfirst]; show (adapt_end_ cfg (phase b)).1.cycle_ = b.cycle_; rw [e2, p2]
      rw [ih (adapt_end_ cfg (phase b)).1 e3 hcyc (by rw [e1]; omega) (by rw [e1]; omega)]
      simp only [Option.map_some', Option.some.injEq, e1]
      omega
    · simp only [hlt, decide_False, Bool.false_eq_true, if_false, Option.some.injEq]
      omega

/-- C11, as amended. On the initial cycle, a block that is never deleted and
enters the adapt loop with `adapt_step_ = 0` runs the adapt phase exactly
`L_max + 1` times (for `L_max >= 0`): `adapt_end_` asks for re-entry exactly
while the `adapt_step_` it reads is below `L_max`, and increments it each
time.  On any other cycle `adapt_end_` asks for the exit and leaves
`adapt_step_` unchanged.  `phase` stands for the other steps of the adapt
phase, which do not touch `adapt_step_`, `cycle_` and `delete_`. -/
theorem adapt_loop_initial_cycle (cfg : Config) (phase : Block → Block) (fuel : Nat)
    (b : Block)
    (hphase : ∀ b, (phase b).adapt_step_ = b.adapt_step_ ∧ (phase b).cycle_ = b.cycle_ ∧
      (phase b).delete_ = b.delete_)
    (hdel : b.delete_ = false) (hstep : b.adapt_step_ = 0) (hmax : 0 ≤ cfg.mesh_max_level)
    (hfuel : cfg.mesh_max_level.toNat < fuel) :
    (b.cycle = cfg.initial_cycle →
      adapt_loop cfg phase fuel b = some (cfg.mesh_max_level.toNat + 1)) ∧
    (∀ b' : Block, b'.delete_ = false → b'.cycle = cfg.initial_cycle →
      (adapt_end_ cfg b').1.adapt_step_ = b'.adapt_step_ + 1 ∧
      ((adapt_end_ cfg b').2.any (Event.isSyncTo Phase.phase_adapt_enter) = true ↔
        b'.adapt_step_ < cfg.mesh_max_level) ∧
      ((adapt_end_ cfg b').2.any (Event.isSyncTo Phase.phase_adapt_exit) = true ↔
        ¬ b'.adapt_step_ < cfg.mesh_max_level)) ∧
    (∀ b' : Block, b'.delete_ = false → b'.cycle ≠ cfg.initial_cycle →
      (adapt_end_ cfg b').1.adapt_step_ = b'.adapt_step_ ∧
      (adapt_end_ cfg b').2.any (Event.isSyncTo Phase.phase_adapt_enter) = false ∧
      (adapt_end_ cfg b').2.any (Event.isSyncTo Phase.phase_adapt_exit) = true) := by
  refine ⟨fun hfirst => ?_, fun b' hd hf => ?_, fun b' hd ho => adapt_end_other_cycle cfg b' hd ho⟩
  · have h := adapt_loop_count cfg phase hphase fuel b hdel hfirst (by rw [hstep]; exact hmax)
      (by rw [hstep]; simpa using hfuel)
    rw [h, hstep]; simp
  · obtain ⟨e1, -, -, e4, e5⟩ := adapt_end_first_cycle cfg b' hd hf
    refine ⟨e1, ?_, ?_⟩
    · rw [e4]; simp
    · rw [e5]; simp

/-- C11, the claim as stated fails: with `L_max = 2`, on the initial cycle and
from `adapt_step_ = 0`, the adapt phase is run three times, not two. -/
theorem adapt_loop_three_iterations :
    sampleLeaf.adapt_step_ = 0 ∧ sampleLeaf.delete_ = false ∧
    sampleLeaf.cycle = ({ sampleConfig with mesh_max_level := 2 } : Config).initial_cycle ∧
    adapt_loop { sampleConfig with mesh_max_level := 2 } (fun b => b) 10 sampleLeaf = some 3 ∧
    adapt_loop { sampleConfig with mesh_max_level := 2 } (fun b => b) 10 sampleLeaf ≠ some 2 := by
  decide

/-- C12 (parent face). `parent_face_` returns true iff `f` is not the zero
vector; it writes `ip[k] = 0` where `f[k]` points at the sibling along axis
`k` (`f[k] = +1` with `ic[k] = 0`, or `f[k] = -1` with `ic[k] = 1`) and
`ip[k] = f[k]` elsewhere; so `ip` is the zero vector iff every nonzero
component of `f` points at the sibling.  This holds for all integer vectors,
in particular for `f` in `{-1,0,+1}^3` and `ic` in `{0,1}^3`. -/
theorem parent_face_spec (f0 f1 f2 c0 c1 c2 : Int) :
    ((parent_face_ (f0, f1, f2) (c0, c1, c2)).2 = true ↔ (f0, f1, f2) ≠ ((0, 0, 0) : Int3)) ∧
    (parent_face_ (f0, f1, f2) (c0, c1, c2)).1 =
      (if (f0 = 1 ∧ c0 = 0) ∨ (f0 = -1 ∧ c0 = 1) then 0 else f0,
       if (f1 = 1 ∧ c1 = 0) ∨ (f1 = -1 ∧ c1 = 1) then 0 else f1,
       if (f2 = 1 ∧ c2 = 0) ∨ (f2 = -1 ∧ c2 = 1) then 0 else f2) ∧
    ((parent_face_ (f0, f1, f2) (c0, c1, c2)).1 = ((0, 0, 0) : Int3) ↔
      (f0 ≠ 0 → (f0 = 1 ∧ c0 = 0) ∨ (f0 = -1 ∧ c0 = 1)) ∧
      (f1 ≠ 0 → (f1 = 1 ∧ c1 = 0) ∨ (f1 = -1 ∧ c1 = 1)) ∧
      (f2 ≠ 0 → (f2 = 1 ∧ c2 = 0) ∨ (f2 = -1 ∧ c2 = 1))) := by
  have key : ∀ f c : Int,
      (if f = -1 ∧ c = 1 then (0 : Int) else if f = 1 ∧ c = 0 then 0 else f) =
        (if (f = 1 ∧ c = 0) ∨ (f = -1 ∧ c = 1) then 0 else f) := by
    intro f c
    split_ifs <;> first | rfl | omega
  have zero : ∀ f c : Int,
      ((if (f = 1 ∧ c = 0) ∨ (f = -1 ∧ c = 1) then (0 : Int) else f) = 0 ↔
        (f ≠ 0 → (f = 1 ∧ c = 0) ∨ (f = -1 ∧ c = 1))) := by
    intro f c
    split_ifs with h
    · simp [h]
    · constructor
      · intro h0 h1; exact absurd h0 h1
      · intro h1; by_contra h0; exact h (h1 h0)
  have hp : (parent_face_ (f0, f1, f2) (c0, c1, c2)).1 =
      (if (f0 = 1 ∧ c0 = 0) ∨ (f0 = -1 ∧ c0 = 1) then 0 else f0,
       if (f1 = 1 ∧ c1 = 0) ∨ (f1 = -1 ∧ c1 = 1) then 0 else f1,
       if (f2 = 1 ∧ c2 = 0) ∨ (f2 = -1 ∧ c2 = 1) then 0 else f2) := by
    simp only [parent_face_, key]
  refine ⟨?_, hp, ?_⟩
  · simp only [parent_face_, decide_eq_true_eq, ne_eq, Prod.mk.injEq, not_and]
    tauto
  · rw [hp]
    simp only [Prod.mk.injEq, zero]

theorem recv_level_leaf_block (T : Topology) (b : Block) (m : Msg)
    (hleaf : b.is_leaf_ = true)
    (hns : ¬ (b.face_level_last_ (m.ic3, m.if3) > m.level_face_new)) :
    (p_adapt_recv_level T b m).1 =
      { (adapt_recv_dispatch T (face_level_last_update b m) m).1 with
        level_next_ := level_next_local b m } := by
  obtain ⟨KF, KC, h⟩ := adapt_recv_dispatch_paints T b.index_ b.rank m
  have hge := level_next_local_ge b m
  have hleaf1 : (face_level_last_update b m).is_leaf = true := hleaf
  have hln : (adapt_recv_dispatch T (face_level_last_update b m) m).1.level_next_
      = b.level_next_ := by
    rw [h (face_level_last_update b m) rfl rfl]; rfl
  unfold p_adapt_recv_level
  simp only [hns, decide_False, Bool.false_eq_true, if_false, hleaf1, Bool.not_true, hln,
    level_next_local_last_update]
  by_cases hne : level_next_local b m = b.level_next_
  · simp only [hne, ne_eq, not_true_eq_false, if_false]
    rw [← hln]
  · have hgt : level_next_local b m > b.level_next_ := by omega
    simp only [hne, ne_eq, not_false_eq_true, if_true, hgt]

theorem adapt_recv_dispatch_jump (T : Topology) (b : Block) (m : Msg)
    (hjump : m.level_face_curr - b.level ≥ 2 ∨ b.level - m.level_face_curr ≥ 2) :
    adapt_recv_dispatch T b m = (b, [Event.warning_level_jump b.level m.level_face_curr]) := by
  have h1 : ¬ m.level_face_curr = b.level := by omega
  have h2 : ¬ m.level_face_curr = b.level + 1 := by omega
  have h3 : ¬ m.level_face_curr = b.level - 1 := by omega
  simp only [adapt_recv_dispatch, h1, h2, h3, if_false]

theorem countP_send_level_events (T : Topology) (b : Block) (m : Msg)
    (hleaf : b.is_leaf_ = true)
    (hns : ¬ (b.face_level_last_ (m.ic3, m.if3) > m.level_face_new)) :
    (p_adapt_recv_level T b m).2.countP Event.isSendLevelCall =
      (if level_next_local b m ≠ b.level_next_ then 1 else 0) := by
  rw [recv_level_leaf_events T b m hleaf hns]
  have h0 : List.countP Event.isSendLevelCall
      (if m.index_send.level ≠ m.level_face_curr then
        [Event.level_mismatch m.index_send.level m.level_face_curr] else []) = 0 :=
    countP_zero_of (fun e he => (ev0_events m e he).2.1)
  have h1 : List.countP Event.isSendLevelCall
      (adapt_recv_dispatch T (face_level_last_update b m) m).2 = 0 :=
    countP_zero_of (fun e he => (adapt_recv_dispatch_events T _ m e he).2.1)
  have h2 : ∀ b', List.countP Event.isSendLevelCall (adapt_send_level T b') = 0 :=
    fun b' => countP_zero_of (fun e he => (adapt_send_level_events T b' e he).1)
  rw [List.countP_append, List.countP_append, h0, h1]
  by_cases hne : level_next_local b m = b.level_next_
  · simp [hne]
  · simp [hne, List.countP_cons, h2, Event.isSendLevelCall]

/-- C14 (message on a block that is not a leaf). `p_adapt_recv_level` raises
the fatal error "Recurse should not be called" exactly once if the block is
not a leaf and the message passes the `face_level_last` filter, and never
otherwise (so never on a leaf); on a block that is not a leaf it leaves
`level_next_` unchanged and does not call `adapt_send_level`. -/
theorem p_adapt_recv_level_recurse_error (T : Topology) (b : Block) (m : Msg) :
    (p_adapt_recv_level T b m).2.countP Event.isRecurseError =
      (if b.is_leaf = false ∧ ¬ (b.face_level_last_ (m.ic3, m.if3) > m.level_face_new)
        then 1 else 0) ∧
    (b.is_leaf = true → (p_adapt_recv_level T b m).2.countP Event.isRecurseError = 0) ∧
    (b.is_leaf = false →
      (p_adapt_recv_level T b m).1.level_next_ = b.level_next_ ∧
      (p_adapt_recv_level T b m).2.countP Event.isSendLevelCall = 0 ∧
      (p_adapt_recv_level T b m).2.countP Event.isPutLevel = 0) := by
  have hev0 : ∀ p : Event → Bool, p (Event.level_mismatch m.index_send.level m.level_face_curr)
      = false → List.countP p
      (if m.index_send.level ≠ m.level_face_curr then
        [Event.level_mismatch m.index_send.level m.level_face_curr] else []) = 0 := by
    intro p hp
    split_ifs <;> simp [List.countP_cons, hp]
  have hleafcase : b.is_leaf = true →
      (p_adapt_recv_level T b m).2.countP Event.isRecurseError = 0 := by
    intro hleaf
    by_cases hs : b.face_level_last_ (m.ic3, m.if3) > m.level_face_new
    · rw [recv_level_skip T b m hs]; exact hev0 _ rfl
    · rw [recv_level_leaf_events T b m hleaf hs]
      apply countP_zero_of
      intro e he
      simp only [List.mem_append] at he
      rcases he with (he | he) | he
      · split_ifs at he
        · simp only [List.mem_singleton] at he; subst he; rfl
        · simp at he
      · simp only [adapt_recv_dispatch] at he
        split_ifs at he <;> simp at he
        subst he; rfl
      · split_ifs at he
        · simp at he
        · simp only [List.mem_cons] at he
          rcases he with he | he
          · subst he; rfl
          · unfold adapt_send_level at he
            split_ifs at he
            · simp at he
            · simp only [List.mem_flatMap] at he
              obtain ⟨of3, -, he⟩ := he
              split_ifs at he <;> first
                | (simp only [List.mem_singleton] at he; subst he; rfl)
                | (simp only [List.mem_map] at he; obtain ⟨ic, -, rfl⟩ := he; rfl)
                | simp at he
  refine ⟨?_, hleafcase, ?_⟩
  · cases hleaf : b.is_leaf
    · by_cases hs : b.face_level_last_ (m.ic3, m.if3) > m.level_face_new
      · rw [recv_level_skip T b m hs]
        simp only [hs, not_true_eq_false, and_false, if_false]
        exact hev0 _ rfl
      · rw [recv_level_nonleaf T b m hs hleaf]
        simp only [hs, not_false_eq_true, and_self, if_true, List.countP_append,
          hev0 Event.isRecurseError rfl]
        simp [List.countP_cons, Event.isRecurseError]
    · simp only [Bool.true_eq_false, false_and, if_false]
      exact hleafcase hleaf
  · intro hleaf
    by_cases hs : b.face_level_last_ (m.ic3, m.if3) > m.level_face_new
    · rw [recv_level_skip T b m hs]
      exact ⟨rfl, hev0 _ rfl, hev0 _ rfl⟩
    · rw [recv_level_nonleaf T b m hs hleaf]
      refine ⟨rfl, ?_, ?_⟩ <;>
        simp [List.countP_append, hev0, List.countP_cons, Event.isSendLevelCall,
          Event.isPutLevel]

/-- C20 (level jump). A leaf that accepts a message whose `lvl_curr` differs
from its level by 2 or more leaves `face_level_next` and
`child_face_level_next` unchanged, the dispatch only logging the warning;
`level_next_` is still set by the cancel-coarsening and
`max(level_next, lvl_new - 1)` rule, and `adapt_send_level` is called, once,
exactly if that changed it. -/
theorem p_adapt_recv_level_jump (T : Topology) (b : Block) (m : Msg)
    (hleaf : b.is_leaf = true)
    (hacc : ¬ (b.face_level_last_ (m.ic3, m.if3) > m.level_face_new))
    (hjump : m.level_face_curr - b.level ≥ 2 ∨ b.level - m.level_face_curr ≥ 2) :
    (p_adapt_recv_level T b m).1.face_level_next_ = b.face_level_next_ ∧
    (p_adapt_recv_level T b m).1.child_face_level_next_ = b.child_face_level_next_ ∧
    (p_adapt_recv_level T b m).2 =
      (if m.index_send.level ≠ m.level_face_curr then
          [Event.level_mismatch m.index_send.level m.level_face_curr] else [])
        ++ [Event.warning_level_jump b.level m.level_face_curr]
        ++ (if level_next_spec b m = b.level_next_ then []
            else Event.call_adapt_send_level ::
              adapt_send_level T (p_adapt_recv_level T b m).1) ∧
    (p_adapt_recv_level T b m).1.level_next_ = level_next_spec b m ∧
    (p_adapt_recv_level T b m).2.countP Event.isSendLevelCall =
      (if level_next_spec b m ≠ b.level_next_ then 1 else 0) := by
  have hd := adapt_recv_dispatch_jump T (face_level_last_update b m) m hjump
  have hb := recv_level_leaf_block T b m hleaf hacc
  rw [hd] at hb
  refine ⟨by rw [hb]; rfl, by rw [hb]; rfl, ?_, ?_, ?_⟩
  · rw [← level_next_local_eq_spec]
    have he := recv_level_leaf_events T b m hleaf hacc
    rw [hd] at he
    exact he
  · rw [hb, ← level_next_local_eq_spec]
  · rw [← level_next_local_eq_spec]
    exact countP_send_level_events T b m hleaf hacc

theorem adapt_send_level_face (T : Topology) (b : Block) (of3 : Int3) :
    (let level := b.level
     let ic3 : Int3 := (0, 0, 0)
     let level_face := b.face_level of3
     if level_face = level then
       [Event.put_level (T.neighbor_ b.index_ of3) ⟨b.index_, ic3, of3, level, b.level_next_⟩]
     else if level_face = level - 1 then
       let ic3 := b.index_.child level
       let op3 := (parent_face_ of3 ic3).1
       if op3.1 = of3.1 ∧ op3.2.1 = of3.2.1 ∧ op3.2.2 = of3.2.2 then
         let index_uncle := (T.neighbor_ b.index_ of3).index_parent
         [Event.put_level index_uncle ⟨b.index_, ic3, of3, level, b.level_next_⟩]
       else []
     else if level_face = level + 1 then
       let if3 := neg3 of3
       (T.ItChild b.rank (some if3)).map (fun ic3 =>
         let index_nibling := (T.neighbor_ b.index_ of3).index_child ic3
         Event.put_level index_nibling ⟨b.index_, ic3, of3, level, b.level_next_⟩)
     else [Event.warning_level_jump level level_face]).filter Event.isPutLevel
    = send_level_face_spec T b of3 := by
  have hop : ∀ x y : Int3, (x.1 = y.1 ∧ x.2.1 = y.2.1 ∧ x.2.2 = y.2.2) ↔ x = y := by
    intro x y
    constructor
    · intro h; exact Prod.ext h.1 (Prod.ext h.2.1 h.2.2)
    · intro h; subst h; exact ⟨rfl, rfl, rfl⟩
  simp only [send_level_face_spec, hop]
  split_ifs
  · simp [Event.isPutLevel]
  · simp [Event.isPutLevel]
  · simp
  · rw [List.filter_eq_self.mpr]
    intro e he
    simp only [List.mem_map] at he
    obtain ⟨ic, -, rfl⟩ := he
    rfl
  · simp [Event.isPutLevel]

/-- C13 (fan-out). `adapt_send_level` sends nothing on a block that is not a
leaf; on a leaf its messages are, face by face in the order of the neighbour
iterator, those of `send_level_face_spec`: one to the same-level neighbour,
one to the uncle iff `parent_face(f, ic) = f`, one per child key of
`ItChild(rank, -f)` to the niblings, none for any other face level.  Every
message carries the sender's index, level and `level_next_`.  (The function
has no block result: it assigns no field.) -/
theorem adapt_send_level_messages (T : Topology) (b : Block) :
    (b.is_leaf = false → adapt_send_level T b = []) ∧
    (b.is_leaf = true →
      (adapt_send_level T b).filter Event.isPutLevel =
        (T.it_neighbor 0 b.index_).flatMap (send_level_face_spec T b)) ∧
    (∀ recv m, Event.put_level recv m ∈ adapt_send_level T b →
      m.index_send = b.index_ ∧ m.level_face_curr = b.level ∧
      m.level_face_new = b.level_next_ ∧ m.if3 ∈ T.it_neighbor 0 b.index_) := by
  refine ⟨?_, ?_, ?_⟩
  · intro h
    simp [adapt_send_level, h]
  · intro h
    simp only [adapt_send_level, h, Bool.not_true, Bool.false_eq_true, if_false]
    induction T.it_neighbor 0 b.index_ with
    | nil => rfl
    | cons f fs ih =>
      simp only [List.flatMap_cons, List.filter_append]
      rw [ih]
      congr 1
      exact adapt_send_level_face T b f
  · intro recv m hm
    unfold adapt_send_level at hm
    split_ifs at hm
    · simp at hm
    · simp only [List.mem_flatMap] at hm
      obtain ⟨of3, hof, hm⟩ := hm
      split_ifs at hm <;> first
        | (simp only [List.mem_singleton, Event.put_level.injEq] at hm
           obtain ⟨-, rfl⟩ := hm
           exact ⟨rfl, rfl, rfl, hof⟩)
        | (simp only [List.mem_map, Event.put_level.injEq] at hm
           obtain ⟨ic, -, -, rfl⟩ := hm
           exact ⟨rfl, rfl, rfl, hof⟩)
        | simp at hm

theorem recv_child_fields (T : Topology) (b : Block) (ic3 : Int3) (cfl : Int3 → Int) :
    (p_adapt_recv_child T b ic3 cfl).1.is_leaf_ = true ∧
    (p_adapt_recv_child T b ic3 cfl).1.age_ = 0 ∧
    (p_adapt_recv_child T b ic3 cfl).2 = [Event.put_delete (b.index_.index_child ic3)] ∧
    (p_adapt_recv_child T b ic3 cfl).1.children_ =
      (if b.sync_coarsen_.count + 1 = b.sync_coarsen_.stop then [] else b.children_) ∧
    (p_adapt_recv_child T b ic3 cfl).1.sync_coarsen_ =
      { b.sync_coarsen_ with count := b.sync_coarsen_.count + 1 } ∧
    (p_adapt_recv_child T b ic3 cfl).1.rank = b.rank ∧
    (p_adapt_recv_child T b ic3 cfl).1.index_ = b.index_ := by
  have h1 : ∀ (l : List Int3) (init : Block),
      (l.foldl (fun acc of3 => acc.set_child_face_level_curr ic3 of3 (cfl of3)) init).children_
        = init.children_ ∧
      (l.foldl (fun acc of3 => acc.set_child_face_level_curr ic3 of3 (cfl of3)) init).sync_coarsen_
        = init.sync_coarsen_ ∧
      (l.foldl (fun acc of3 => acc.set_child_face_level_curr ic3 of3 (cfl of3)) init).rank
        = init.rank ∧
      (l.foldl (fun acc of3 => acc.set_child_face_level_curr ic3 of3 (cfl of3)) init).index_
        = init.index_ := by
    intro l init
    exact foldl_invariant (fun acc : Block => acc.children_ = init.children_ ∧
      acc.sync_coarsen_ = init.sync_coarsen_ ∧ acc.rank = init.rank ∧ acc.index_ = init.index_)
      _ l init ⟨rfl, rfl, rfl, rfl⟩ (fun acc x h => h)
  have h2 : ∀ (l : List Int3) (init : Block),
      (l.foldl (fun acc of3 => if (parent_face_ of3 ic3).2 then
        acc.set_face_level_curr (parent_face_ of3 ic3).1 (cfl of3) else acc) init).children_
        = init.children_ ∧
      (l.foldl (fun acc of3 => if (parent_face_ of3 ic3).2 then
        acc.set_face_level_curr (parent_face_ of3 ic3).1 (cfl of3) else acc) init).sync_coarsen_
        = init.sync_coarsen_ ∧
      (l.foldl (fun acc of3 => if (parent_face_ of3 ic3).2 then
        acc.set_face_level_curr (parent_face_ of3 ic3).1 (cfl of3) else acc) init).rank
        = init.rank ∧
      (l.foldl (fun acc of3 => if (parent_face_ of3 ic3).2 then
        acc.set_face_level_curr (parent_face_ of3 ic3).1 (cfl of3) else acc) init).index_
        = init.index_ := by
    intro l init
    refine foldl_invariant (fun acc : Block => acc.children_ = init.children_ ∧
      acc.sync_coarsen_ = init.sync_coarsen_ ∧ acc.rank = init.rank ∧ acc.index_ = init.index_)
      _ l init ⟨rfl, rfl, rfl, rfl⟩ (fun acc x h => ?_)
    split_ifs
    · exact h
    · exact h
  obtain ⟨a1, a2, a3, a4⟩ := h1 (T.it_face 0 (b.index_.index_child ic3) none none) b
  obtain ⟨b1, b2, b3, b4⟩ := h2 (T.it_face 0 b.index_ none none)
    ((T.it_face 0 (b.index_.index_child ic3) none none).foldl
      (fun acc of3 => acc.set_child_face_level_curr ic3 of3 (cfl of3)) b)
  rw [a1] at b1; rw [a2] at b2; rw [a3] at b3; rw [a4] at b4
  have key : ∀ B : Block, B.children_ = b.children_ → B.sync_coarsen_ = b.sync_coarsen_ →
      B.rank = b.rank → B.index_ = b.index_ →
      ({ (adapt_delete_child_ { B with is_leaf_ := true } (b.index_.index_child ic3)).1 with
          age_ := 0 } : Block).is_leaf_ = true ∧
      ({ (adapt_delete_child_ { B with is_leaf_ := true } (b.index_.index_child ic3)).1 with
          age_ := 0 } : Block).age_ = 0 ∧
      (adapt_delete_child_ { B with is_leaf_ := true } (b.index_.index_child ic3)).2
        = [Event.put_delete (b.index_.index_child ic3)] ∧
      ({ (adapt_delete_child_ { B with is_leaf_ := true } (b.index_.index_child ic3)).1 with
          age_ := 0 } : Block).children_ =
        (if b.sync_coarsen_.count + 1 = b.sync_coarsen_.stop then [] else b.children_) ∧
      ({ (adapt_delete_child_ { B with is_leaf_ := true } (b.index_.index_child ic3)).1 with
          age_ := 0 } : Block).sync_coarsen_ =
        { b.sync_coarsen_ with count := b.sync_coarsen_.count + 1 } ∧
      ({ (adapt_delete_child_ { B with is_leaf_ := true } (b.index_.index_child ic3)).1 with
          age_ := 0 } : Block).rank = b.rank ∧
      ({ (adapt_delete_child_ { B with is_leaf_ := true } (b.index_.index_child ic3)).1 with
          age_ := 0 } : Block).index_ = b.index_ := by
    intro B c1 c2 c3 c4
    unfold adapt_delete_child_ Sync.next
    by_cases hc : b.sync_coarsen_.count + 1 = b.sync_coarsen_.stop
    · simp [hc, c2, c3, c4]
    · simp [hc, c1, c2, c3, c4]
  exact key _ b1 b2 b3 b4

theorem adapt_end_rearm (cfg : Config) (b : Block) (hdel : b.delete_ = false) :
    (adapt_end_ cfg b).1.sync_coarsen_ = { stop := NC b.rank, count := 0 } ∧
    (adapt_end_ cfg b).1.children_ = b.children_ ∧
    (adapt_end_ cfg b).1.rank = b.rank ∧
    (adapt_end_ cfg b).1.is_leaf_ = b.is_leaf_ := by
  unfold adapt_end_
  simp only [hdel, Bool.false_eq_true, if_false, Sync.set_stop, Sync.reset]
  split_ifs <;> exact ⟨rfl, rfl, rfl, rfl⟩

theorem recv_children_below (T : Topology) (calls : List (Int3 × (Int3 → Int))) :
    ∀ b : Block, b.sync_coarsen_.count + calls.length < b.sync_coarsen_.stop →
      (recv_children T b calls).children_ = b.children_ ∧
      (recv_children T b calls).sync_coarsen_ =
        { b.sync_coarsen_ with count := b.sync_coarsen_.count + calls.length } := by
  induction calls with
  | nil => intro b _; simp [recv_children]
  | cons c cs ih =>
    intro b hlt
    obtain ⟨-, -, -, f4, f5, -, -⟩ := recv_child_fields T b c.1 c.2
    simp only [List.length_cons, Nat.cast_add, Nat.cast_one] at hlt
    have hne : ¬ b.sync_coarsen_.count + 1 = b.sync_coarsen_.stop := by omega
    rw [if_neg hne] at f4
    have h := ih (p_adapt_recv_child T b c.1 c.2).1 (by rw [f5]; simp only []; omega)
    show (recv_children T (p_adapt_recv_child T b c.1 c.2).1 cs).children_ = _ ∧
      (recv_children T (p_adapt_recv_child T b c.1 c.2).1 cs).sync_coarsen_ = _
    rw [h.1, h.2, f4, f5]
    refine ⟨rfl, ?_⟩
    simp only [List.length_cons, Nat.cast_add, Nat.cast_one, Sync.mk.injEq, true_and]
    omega

theorem recv_children_last (T : Topology) (calls : List (Int3 × (Int3 → Int))) :
    ∀ b : Block, calls ≠ [] → b.sync_coarsen_.count + calls.length = b.sync_coarsen_.stop →
      (recv_children T b calls).children_ = [] := by
  induction calls with
  | nil => intro b h _; exact absurd rfl h
  | cons c cs ih =>
    intro b _ heq
    obtain ⟨-, -, -, f4, f5, -, -⟩ := recv_child_fields T b c.1 c.2
    simp only [List.length_cons, Nat.cast_add, Nat.cast_one] at heq
    show (recv_children T (p_adapt_recv_child T b c.1 c.2).1 cs).children_ = []
    cases cs with
    | nil =>
      simp only [List.length_nil, Nat.cast_zero, zero_add] at heq
      rw [if_pos heq] at f4
      exact f4
    | cons d ds =>
      apply ih
      · simp
      · rw [f5]; simp only [List.length_cons, Nat.cast_add, Nat.cast_one] at heq ⊢; omega

/-- C16 (absorbing the children). Every call of `p_adapt_recv_child` sets
`is_leaf_ = true` and `age_ = 0` and sends `p_adapt_delete` to the child
`index_.index_child(ic)`; after `adapt_end_` has re-armed `sync_coarsen_`,
fewer than `2^rank` calls leave `children_` unchanged and the `2^rank`-th call
clears it. -/
theorem p_adapt_recv_child_counts (T : Topology) (cfg : Config) (b : Block)
    (hdel : b.delete_ = false) :
    (∀ (b' : Block) (ic3 : Int3) (cfl : Int3 → Int),
      (p_adapt_recv_child T b' ic3 cfl).1.is_leaf_ = true ∧
      (p_adapt_recv_child T b' ic3 cfl).1.age_ = 0 ∧
      (p_adapt_recv_child T b' ic3 cfl).2 = [Event.put_delete (b'.index_.index_child ic3)]) ∧
    (∀ calls : List (Int3 × (Int3 → Int)), calls.length < 2 ^ b.rank.toNat →
      (recv_children T (adapt_end_ cfg b).1 calls).children_ = b.children_) ∧
    (∀ calls : List (Int3 × (Int3 → Int)), calls.length = 2 ^ b.rank.toNat →
      (recv_children T (adapt_end_ cfg b).1 calls).children_ = []) := by
  obtain ⟨r1, r2, -, -⟩ := adapt_end_rearm cfg b hdel
  refine ⟨fun b' ic3 cfl => ?_, fun calls hlt => ?_, fun calls heq => ?_⟩
  · obtain ⟨f1, f2, f3, -⟩ := recv_child_fields T b' ic3 cfl
    exact ⟨f1, f2, f3⟩
  · have h := (recv_children_below T calls (adapt_end_ cfg b).1 (by
      rw [r1]; simp only [NC, zero_add]; exact_mod_cast hlt)).1
    rw [h, r2]
  · apply recv_children_last
    · intro hnil
      rw [hnil] at heq
      have hpos := Nat.two_pow_pos b.rank.toNat
      simp only [List.length_nil] at heq
      omega
    · rw [r1]; simp only [NC, zero_add]; exact_mod_cast heq

theorem index_child_injective (i : Index) (a c : Int3) (h : i.index_child a = i.index_child c) :
    a = c := by
  simp only [Index.index_child, Index.mk.injEq, true_and] at h
  have := List.append_cancel_left h
  simpa using this

theorem refineKeys_sublist (i : Index) (l : List Int3) :
    ∀ ch : List Index, (refineKeys i ch l).Sublist l := by
  induction l with
  | nil => intro ch; simp [refineKeys]
  | cons ic rest ih =>
    intro ch
    simp only [refineKeys]
    split_ifs
    · exact (ih ch).cons ic
    · exact (ih _).cons₂ ic

theorem refineKeys_fresh (i : Index) (l : List Int3) :
    ∀ ch : List Index, ∀ ic ∈ refineKeys i ch l, i.index_child ic ∉ ch := by
  induction l with
  | nil => intro ch ic h; simp [refineKeys] at h
  | cons k rest ih =>
    intro ch ic h
    simp only [refineKeys] at h
    split_ifs at h with hk
    · exact ih ch ic h
    · simp only [List.mem_cons] at h
      rcases h with h | h
      · subst h; exact hk
      · intro hmem
        exact ih _ ic h (List.mem_append_left _ hmem)

theorem refineKeys_nodup (i : Index) (l : List Int3) :
    ∀ ch : List Index, ((refineKeys i ch l).map i.index_child).Nodup := by
  induction l with
  | nil => intro ch; simp [refineKeys]
  | cons k rest ih =>
    intro ch
    simp only [refineKeys]
    split_ifs with hk
    · exact ih ch
    · simp only [List.map_cons, List.nodup_cons, List.mem_map, not_exists, not_and]
      refine ⟨fun ic hic heq => ?_, ih _⟩
      have := refineKeys_fresh i rest _ ic hic
      apply this
      rw [heq]
      simp

theorem refineKeys_covers (i : Index) (l : List Int3) :
    ∀ ch : List Index, ∀ ic ∈ l,
      i.index_child ic ∈ ch ++ (refineKeys i ch l).map i.index_child := by
  induction l with
  | nil => intro ch ic h; simp at h
  | cons k rest ih =>
    intro ch ic h
    simp only [refineKeys]
    simp only [List.mem_cons] at h
    split_ifs with hk
    · rcases h with h | h
      · subst h; exact List.mem_append_left _ hk
      · exact ih ch ic h
    · rcases h with h | h
      · subst h; simp
      · have := ih (ch ++ [i.index_child k]) ic h
        simp only [List.mem_append, List.mem_singleton, List.map_cons, List.mem_cons] at this ⊢
        tauto

theorem refineKeys_all (i : Index) (l : List Int3) :
    ∀ ch : List Index, l.Nodup → (∀ ic ∈ l, i.index_child ic ∉ ch) → refineKeys i ch l = l := by
  induction l with
  | nil => intro ch _ _; rfl
  | cons k rest ih =>
    intro ch hnd hfresh
    simp only [refineKeys]
    have hk : i.index_child k ∉ ch := hfresh k (List.mem_cons_self _ _)
    rw [if_neg hk]
    rw [List.nodup_cons] at hnd
    congr 1
    apply ih _ hnd.2
    intro ic hic hmem
    simp only [List.mem_append, List.mem_singleton] at hmem
    rcases hmem with hmem | hmem
    · exact hfresh ic (List.mem_cons_of_mem _ hic) hmem
    · have := index_child_injective i ic k hmem
      subst this
      exact hnd.1 hic

theorem adapt_refine_loop (step : Block × List Event → Int3 → Block × List Event)
    (hstep : ∀ (acc : Block × List Event) (ic3 : Int3), step acc ic3 =
      if ! acc.1.is_child_ (acc.1.index_.index_child ic3) then
        ({ acc.1 with children_ := acc.1.children_ ++ [acc.1.index_.index_child ic3] },
          acc.2 ++ [Event.create_block (acc.1.index_.index_child ic3) acc.1.adapt_step_
            acc.1.cycle_ acc.1.time_ acc.1.dt_ (fun f => acc.1.child_face_level_curr_ (ic3, f))])
      else acc)
    (l : List Int3) : ∀ acc : Block × List Event,
    l.foldl step acc =
    ({ acc.1 with children_ := acc.1.children_ ++
        (refineKeys acc.1.index_ acc.1.children_ l).map acc.1.index_.index_child },
      acc.2 ++ (refineKeys acc.1.index_ acc.1.children_ l).map (fun ic3 =>
        Event.create_block (acc.1.index_.index_child ic3) acc.1.adapt_step_ acc.1.cycle_
          acc.1.time_ acc.1.dt_ (fun f => acc.1.child_face_level_curr_ (ic3, f)))) := by
  induction l with
  | nil => intro acc; simp [refineKeys]
  | cons k rest ih =>
    intro acc
    rw [List.foldl_cons, hstep]
    simp only [refineKeys, Block.is_child_]
    by_cases hk : acc.1.index_.index_child k ∈ acc.1.children_
    · simp only [hk, decide_True, Bool.not_true, Bool.false_eq_true, if_false, if_true]
      exact ih acc
    · simp only [hk, decide_False, Bool.not_false, if_true, if_false]
      rw [ih]
      simp only [List.map_cons, List.append_assoc, List.singleton_append]

theorem adapt_refine_eq (T : Topology) (b : Block) :
    adapt_refine_ T b =
      ({ b with adapt_ := adapt_unknown, is_leaf_ := false,
                children_ := b.children_ ++
                  (refineKeys b.index_ b.children_ (T.ItChild b.rank none)).map
                    b.index_.index_child },
        (refineKeys b.index_ b.children_ (T.ItChild b.rank none)).map (fun ic3 =>
          Event.create_block (b.index_.index_child ic3) b.adapt_step_ b.cycle_ b.time_ b.dt_
            (fun f => b.child_face_level_curr_ (ic3, f)))) := by
  unfold adapt_refine_
  simp only []
  rw [adapt_refine_loop _ (fun _ _ => rfl)]
  simp only [List.nil_append]

/-- C15 (refinement). `adapt_refine_` creates one block for each key `ic` of a
list `keys` drawn from `ItChild(rank)`: the keys whose child index is not yet
in `children_`, each once.  It appends their indices to `children_`, whose old
entries are kept and not repeated, passes the block's `adapt_step_`, `cycle_`,
`time_` and `dt_` to every child, and ends with `is_leaf_ = false`.  When
`children_` is empty and `ItChild(rank)` enumerates `2^rank` distinct keys, the
result has `2^rank` pairwise distinct children, one per key. -/
theorem adapt_refine_children (T : Topology) (b : Block) :
    (∃ keys : List Int3, keys.Sublist (T.ItChild b.rank none) ∧
      (∀ ic ∈ keys, b.index_.index_child ic ∉ b.children_) ∧
      (∀ ic ∈ T.ItChild b.rank none, b.index_.index_child ic ∉ b.children_ → ic ∈ keys) ∧
      (keys.map b.index_.index_child).Nodup ∧
      (adapt_refine_ T b).2 = keys.map (fun ic =>
        Event.create_block (b.index_.index_child ic) b.adapt_step_ b.cycle_ b.time_ b.dt_
          (fun f => b.child_face_level_curr_ (ic, f))) ∧
      (adapt_refine_ T b).1.children_ = b.children_ ++ keys.map b.index_.index_child) ∧
    (adapt_refine_ T b).1.is_leaf_ = false ∧
    (b.children_ = [] → (T.ItChild b.rank none).Nodup →
      (T.ItChild b.rank none).length = 2 ^ b.rank.toNat →
      (adapt_refine_ T b).1.children_ = (T.ItChild b.rank none).map b.index_.index_child ∧
      (adapt_refine_ T b).1.children_.length = 2 ^ b.rank.toNat ∧
      (adapt_refine_ T b).1.children_.Nodup ∧
      (adapt_refine_ T b).2 = (T.ItChild b.rank none).map (fun ic =>
        Event.create_block (b.index_.index_child ic) b.adapt_step_ b.cycle_ b.time_ b.dt_
          (fun f => b.child_face_level_curr_ (ic, f)))) := by
  rw [adapt_refine_eq]
  refine ⟨⟨refineKeys b.index_ b.children_ (T.ItChild b.rank none),
    refineKeys_sublist _ _ _, refineKeys_fresh _ _ _, ?_, refineKeys_nodup _ _ _, rfl, rfl⟩,
    rfl, ?_⟩
  · intro ic hic hfresh
    have h := refineKeys_covers b.index_ (T.ItChild b.rank none) b.children_ ic hic
    simp only [List.mem_append, List.mem_map] at h
    rcases h with h | ⟨ic', hic', heq⟩
    · exact absurd h hfresh
    · rw [← index_child_injective b.index_ ic' ic heq]; exact hic'
  · intro hempty hnd hlen
    have hall : refineKeys b.index_ b.children_ (T.ItChild b.rank none)
        = T.ItChild b.rank none := by
      apply refineKeys_all _ _ _ hnd
      intro ic _
      rw [hempty]; simp
    rw [hempty] at hall
    simp only [hempty, hall, List.nil_append, List.length_map, hlen]
    exact ⟨trivial, trivial, hnd.map (fun a c h => index_child_injective b.index_ a c h),
      trivial⟩

theorem adapt_begin_keeps (cfg : Config) (criteria : List Int) (b : Block) :
    (adapt_begin_ cfg criteria b).1.adapt_step_ = b.adapt_step_ ∧
    (adapt_begin_ cfg criteria b).1.cycle_ = b.cycle_ ∧
    (adapt_begin_ cfg criteria b).1.delete_ = b.delete_ := by
  unfold adapt_begin_ adapt_compute_desired_level_
  simp only []
  split_ifs <;> exact ⟨rfl, rfl, rfl⟩

theorem adapt_next_keeps (T : Topology) (b : Block) :
    (adapt_next_ T b).1.adapt_step_ = b.adapt_step_ ∧
    (adapt_next_ T b).1.cycle_ = b.cycle_ ∧
    (adapt_next_ T b).1.delete_ = b.delete_ := by
  have hc : ∀ b' : Block, (adapt_coarsen_ b').1 = b' := fun b' => (adapt_coarsen_frame b').1
  unfold adapt_next_
  simp only [hc]
  split_ifs <;> first | exact ⟨rfl, rfl, rfl⟩ | (rw [adapt_refine_eq]; exact ⟨rfl, rfl, rfl⟩)

theorem adapt_coarsen_block (b : Block) : (adapt_coarsen_ b).1 = b := (adapt_coarsen_frame b).1

/-- C17, as amended. If a block is a leaf iff it has no children, this still
holds after `adapt_refine_` (when `ItChild(rank)` yields at least one key),
`adapt_coarsen_`, `p_adapt_recv_level`, `p_adapt_delete` and `adapt_end_`.
After `p_adapt_recv_child` the block is a leaf, and it has no children exactly
if this call makes `sync_coarsen_` reach its stop value or the block had none
before. -/
theorem forest_consistency_steps (T : Topology) (cfg : Config) (b : Block)
    (h : Consistent b) :
    (T.ItChild b.rank none ≠ [] → Consistent (adapt_refine_ T b).1) ∧
    Consistent (adapt_coarsen_ b).1 ∧
    (∀ m : Msg, Consistent (p_adapt_recv_level T b m).1) ∧
    Consistent (p_adapt_delete b).1 ∧
    Consistent (adapt_end_ cfg b).1 ∧
    (∀ (ic3 : Int3) (cfl : Int3 → Int),
      (p_adapt_recv_child T b ic3 cfl).1.is_leaf_ = true ∧
      (Consistent (p_adapt_recv_child T b ic3 cfl).1 ↔
        (b.sync_coarsen_.count + 1 = b.sync_coarsen_.stop ∨ b.children_ = []))) := by
  refine ⟨?_, ?_, ?_, h, ?_, ?_⟩
  · intro hne
    rw [adapt_refine_eq]
    unfold Consistent
    simp only [Bool.false_eq_true, List.append_eq_nil, List.map_eq_nil_iff, false_iff, not_and]
    intro hch hkeys
    have hall : refineKeys b.index_ b.children_ (T.ItChild b.rank none)
        = T.ItChild b.rank none := by
      cases hl : T.ItChild b.rank none with
      | nil => exact absurd hl hne
      | cons k rest =>
        rw [hl] at hkeys
        simp [refineKeys, hch] at hkeys
    exact hne (hall ▸ hkeys)
  · rw [adapt_coarsen_block]; exact h
  · intro m
    obtain ⟨-, f2, -, f4⟩ := recv_level_frame T b m
    unfold Consistent
    rw [f2, f4]; exact h
  · by_cases hdel : b.delete_ = false
    · obtain ⟨-, r2, -, r4⟩ := adapt_end_rearm cfg b hdel
      unfold Consistent
      rw [r2, r4]; exact h
    · have hd : b.delete_ = true := by simpa using hdel
      have : (adapt_end_ cfg b).1 = b := by
        unfold adapt_end_
        simp only [hd, if_true]
      rw [this]; exact h
  · intro ic3 cfl
    obtain ⟨f1, -, -, f4, -⟩ := recv_child_fields T b ic3 cfl
    refine ⟨f1, ?_⟩
    unfold Consistent
    rw [f1, f4]
    by_cases hc : b.sync_coarsen_.count + 1 = b.sync_coarsen_.stop
    · simp [hc]
    · simp [hc]

/-- C17, the claim as stated fails: `sampleParent` is not a leaf and has four
children; after one `p_adapt_recv_child` it is a leaf that still has them. -/
theorem forest_consistency_broken :
    Consistent sampleParent ∧
    ¬ Consistent (p_adapt_recv_child (periodicTopology 2) sampleParent (0, 0, 0)
      (fun _ => 2)).1 := by
  unfold Consistent
  decide

/-- C19, the code at a failing input: for the child `(0,0,0)` of `sampleParent`
the child face `(1,0,0)` points at a sibling, its parent face is the zero
vector, `parent_face_` still returns true, and `p_adapt_recv_child` writes the
child's level 5 into `face_level_curr_` at the zero vector. -/
theorem p_adapt_recv_child_writes_zero_face :
    (1, 0, 0) ∈ (periodicTopology 2).it_face 0 sampleParent.index_ none none ∧
    parent_face_ (1, 0, 0) (0, 0, 0) = ((0, 0, 0), true) ∧
    sampleParent.face_level_curr_ (0, 0, 0) = 1 ∧
    (p_adapt_recv_child (periodicTopology 2) sampleParent (0, 0, 0)
      (fun _ => 5)).1.face_level_curr_ (0, 0, 0) = 5 := by
  decide

/-! ## These theorems at concrete blocks -/

/-- C11 as amended, at `sampleLeaf` on the initial cycle of `sampleConfig`
(`L_max = 3`): four runs of the adapt phase. -/
theorem adapt_loop_initial_cycle_witness :
    (∀ b, (samplePhase b).adapt_step_ = b.adapt_step_ ∧ (samplePhase b).cycle_ = b.cycle_ ∧
      (samplePhase b).delete_ = b.delete_) ∧
    sampleLeaf.delete_ = false ∧ sampleLeaf.adapt_step_ = 0 ∧
    0 ≤ sampleConfig.mesh_max_level ∧ sampleConfig.mesh_max_level.toNat < 10 ∧
    sampleLeaf.cycle = sampleConfig.initial_cycle ∧
    adapt_loop sampleConfig samplePhase 10 sampleLeaf
      = some (sampleConfig.mesh_max_level.toNat + 1) :=
  have hphase : ∀ b, (samplePhase b).adapt_step_ = b.adapt_step_ ∧
      (samplePhase b).cycle_ = b.cycle_ ∧ (samplePhase b).delete_ = b.delete_ := fun b =>
    ⟨((adapt_next_keeps _ _).1).trans (adapt_begin_keeps _ _ b).1,
     ((adapt_next_keeps _ _).2.1).trans (adapt_begin_keeps _ _ b).2.1,
     ((adapt_next_keeps _ _).2.2).trans (adapt_begin_keeps _ _ b).2.2⟩
  ⟨hphase, rfl, rfl, by decide, by decide, rfl,
   (adapt_loop_initial_cycle sampleConfig samplePhase 10 sampleLeaf hphase rfl rfl
     (by decide) (by decide)).1 rfl⟩

/-- C12 at the face `(1,0,0)` of the child `(0,0,0)`, which points at a sibling. -/
theorem parent_face_spec_witness :
    (parent_face_ (1, 0, 0) (0, 0, 0)).1 = ((0, 0, 0) : Int3) :=
  (parent_face_spec 1 0 0 0 0 0).2.2.mpr
    ⟨fun _ => Or.inl ⟨rfl, rfl⟩, fun h => absurd rfl h, fun h => absurd rfl h⟩

/-- C13 at `sampleLeaf`, a leaf. -/
theorem adapt_send_level_messages_witness :
    sampleLeaf.is_leaf = true ∧
    (adapt_send_level (periodicTopology 2) sampleLeaf).filter Event.isPutLevel =
      ((periodicTopology 2).it_neighbor 0 sampleLeaf.index_).flatMap
        (send_level_face_spec (periodicTopology 2) sampleLeaf) :=
  ⟨rfl, (adapt_send_level_messages (periodicTopology 2) sampleLeaf).2.1 rfl⟩

/-- C14 at `sampleParent`, which is not a leaf. -/
theorem p_adapt_recv_level_recurse_error_witness :
    sampleParent.is_leaf = false ∧
    (p_adapt_recv_level (periodicTopology 2) sampleParent sampleMsg).1.level_next_
      = sampleParent.level_next_ ∧
    (p_adapt_recv_level (periodicTopology 2) sampleParent sampleMsg).2.countP
      Event.isSendLevelCall = 0 ∧
    (p_adapt_recv_level (periodicTopology 2) sampleParent sampleMsg).2.countP
      Event.isPutLevel = 0 :=
  ⟨rfl, (p_adapt_recv_level_recurse_error (periodicTopology 2) sampleParent sampleMsg).2.2 rfl⟩

/-- C15 at `sampleLeaf`, which has no children: four distinct children. -/
theorem adapt_refine_children_witness :
    sampleLeaf.children_ = [] ∧ ((periodicTopology 2).ItChild sampleLeaf.rank none).Nodup ∧
    ((periodicTopology 2).ItChild sampleLeaf.rank none).length = 2 ^ sampleLeaf.rank.toNat ∧
    (adapt_refine_ (periodicTopology 2) sampleLeaf).1.children_.length
      = 2 ^ sampleLeaf.rank.toNat ∧
    (adapt_refine_ (periodicTopology 2) sampleLeaf).1.children_.Nodup :=
  ⟨rfl, by decide, by decide,
   ((adapt_refine_children (periodicTopology 2) sampleLeaf).2.2 rfl (by decide)
     (by decide)).2.1,
   ((adapt_refine_children (periodicTopology 2) sampleLeaf).2.2 rfl (by decide)
     (by decide)).2.2.1⟩

/-- C16 at `sampleParent` receiving the data of its four children. -/
theorem p_adapt_recv_child_counts_witness :
    sampleParent.delete_ = false ∧
    (recv_children (periodicTopology 2) (adapt_end_ sampleConfig sampleParent).1
      [((0, 0, 0), fun _ => 2), ((1, 0, 0), fun _ => 2), ((0, 1, 0), fun _ => 2),
        ((1, 1, 0), fun _ => 2)]).children_ = [] :=
  ⟨rfl, (p_adapt_recv_child_counts (periodicTopology 2) sampleConfig sampleParent rfl).2.2
    [((0, 0, 0), fun _ => 2), ((1, 0, 0), fun _ => 2), ((0, 1, 0), fun _ => 2),
      ((1, 1, 0), fun _ => 2)] (by decide)⟩

/-- C17 as amended, at `sampleLeaf`: consistent before and after `adapt_refine_`. -/
theorem forest_consistency_steps_witness :
    Consistent sampleLeaf ∧ (periodicTopology 2).ItChild sampleLeaf.rank none ≠ [] ∧
    Consistent (adapt_refine_ (periodicTopology 2) sampleLeaf).1 :=
  ⟨by unfold Consistent; decide, by decide,
   (forest_consistency_steps (periodicTopology 2) sampleConfig sampleLeaf
     (by unfold Consistent; decide)).1 (by decide)⟩

/-- C20 at `sampleLeaf` (level 2) receiving `sampleJumpMsg` (`lvl_curr = 4`). -/
theorem p_adapt_recv_level_jump_witness :
    sampleLeaf.is_leaf = true ∧
    ¬ (sampleLeaf.face_level_last_ (sampleJumpMsg.ic3, sampleJumpMsg.if3)
      > sampleJumpMsg.level_face_new) ∧
    sampleJumpMsg.level_face_curr - sampleLeaf.level ≥ 2 ∧
    (p_adapt_recv_level (periodicTopology 2) sampleLeaf sampleJumpMsg).1.face_level_next_
      = sampleLeaf.face_level_next_ ∧
    (p_adapt_recv_level (periodicTopology 2) sampleLeaf sampleJumpMsg).1.level_next_
      = level_next_spec sampleLeaf sampleJumpMsg :=
  ⟨rfl, by decide, by decide,
   (p_adapt_recv_level_jump (periodicTopology 2) sampleLeaf sampleJumpMsg rfl (by decide)
     (Or.inl (by decide))).1,
   (p_adapt_recv_level_jump (periodicTopology 2) sampleLeaf sampleJumpMsg rfl (by decide)
     (Or.inl (by decide))).2.2.2.1⟩

/-! ## The comoving expansion method, the desired level off the leaves, the end of the phase -/

/-- C24, the code at the failing inputs: with comoving coordinates enabled and
a cosmology object present the `ASSERT` of `timestep` and of `compute` fails,
and with the object missing it passes and the `NULL` pointer is used.  For all
inputs the asserted condition is false exactly when comoving coordinates are
enabled and the cosmology object is present. -/
theorem cosmology_assert_inverted :
    (∀ comoving cosmology : Bool,
      ASSERT (cosmology_assert_condition comoving cosmology) = false ↔
        (comoving = true ∧ cosmology = true)) ∧
    (∀ block : EnzoBlockView,
      EnzoMethodComovingExpansion.timestep ⟨true⟩ { block with cosmology := true } =
        [EnzoEvent.physics_lookup, EnzoEvent.assert_failure
          "comoving_coordinates enabled but missing EnzoPhysicsCosmology"]) ∧
    (∀ block : EnzoBlockView,
      EnzoMethodComovingExpansion.timestep ⟨true⟩ { block with cosmology := false } =
        [EnzoEvent.physics_lookup, EnzoEvent.null_dereference]) ∧
    EnzoMethodComovingExpansion.compute ⟨true⟩
        { is_leaf := true, field_count := 3, cosmology := true } =
      [EnzoEvent.physics_lookup, EnzoEvent.assert_failure
        "comoving_coordinates enabled but missing EnzoPhysicsCosmology"] ∧
    EnzoMethodComovingExpansion.compute ⟨true⟩
        { is_leaf := true, field_count := 3, cosmology := false } =
      [EnzoEvent.physics_lookup, EnzoEvent.null_dereference] := by
  refine ⟨by decide, ?_, ?_, by decide, by decide⟩
  · intro block
    simp [EnzoMethodComovingExpansion.timestep, ASSERT, cosmology_assert_condition]
  · intro block
    simp [EnzoMethodComovingExpansion.timestep, ASSERT, cosmology_assert_condition]

/-- C25, the code at a failing input: on a block that is not a leaf, with
comoving coordinates disabled and a cosmology object present, `compute` calls
`compute_done()`, then does the whole expansion work and calls
`compute_done()` a second time. -/
theorem compute_falls_through :
    EnzoMethodComovingExpansion.compute ⟨false⟩
        { is_leaf := false, field_count := 3, cosmology := true } =
      [EnzoEvent.compute_done, EnzoEvent.physics_lookup, EnzoEvent.compute_expansion_factor,
        EnzoEvent.compute_pressure false, EnzoEvent.expand_terms, EnzoEvent.compute_done] ∧
    (EnzoMethodComovingExpansion.compute ⟨false⟩
        { is_leaf := false, field_count := 3, cosmology := true }).count
      EnzoEvent.compute_done = 2 ∧
    (∀ (m : EnzoMethodComovingExpansion) (block : EnzoBlockView),
      (m.compute block).countP EnzoEvent.isExpansionWork ≥ 1) := by
  refine ⟨by decide, by decide, ?_⟩
  intro m block
  unfold EnzoMethodComovingExpansion.compute
  simp only []
  split_ifs <;> simp [List.countP_cons, List.countP_append, EnzoEvent.isExpansionWork]

/-- C26 (desired level of a block that is not a leaf). On a block that is not
a leaf `adapt_compute_desired_level_` returns the constant `adapt_same` and
leaves the block, `adapt_` included, as it is, whatever the level, `L_max` and
the criteria; `adapt_begin_` then sets `level_next_` to that constant, which is
not the block's level unless the two happen to coincide. -/
theorem desired_level_not_leaf (cfg : Config) (criteria : List Int) (b : Block)
    (level_maximum : Int) (hleaf : b.is_leaf = false) :
    adapt_compute_desired_level_ cfg criteria b level_maximum = (adapt_same, b) ∧
    (∀ (cfg' : Config) (criteria' : List Int) (level_maximum' : Int),
      adapt_compute_desired_level_ cfg' criteria' b level_maximum'
        = adapt_compute_desired_level_ cfg criteria b level_maximum) ∧
    (adapt_begin_ cfg criteria b).1 = { b with level_next_ := adapt_same } ∧
    (b.level ≠ adapt_same → (adapt_begin_ cfg criteria b).1.level_next_ ≠ b.level) := by
  have h : ∀ (cfg' : Config) (criteria' : List Int) (level_maximum' : Int),
      adapt_compute_desired_level_ cfg' criteria' b level_maximum' = (adapt_same, b) := by
    intro cfg' criteria' L
    simp [adapt_compute_desired_level_, hleaf]
  refine ⟨h _ _ _, fun cfg' criteria' L => by rw [h, h], ?_, ?_⟩
  · simp only [adapt_begin_, h]
  · intro hne
    simp only [adapt_begin_, h]
    exact fun heq => hne heq.symm

/-- C26 at `sampleParent`, a block at level 1 that is not a leaf, with `adapt_ = 0`:
after `adapt_begin_` with a refine vote `level_next_` is `adapt_same`. -/
theorem desired_level_not_leaf_witness :
    sampleParent.is_leaf = false ∧
    adapt_compute_desired_level_ sampleConfig [adapt_refine] sampleParent 3
      = (adapt_same, sampleParent) ∧
    (adapt_begin_ sampleConfig [adapt_refine] sampleParent).1
      = { sampleParent with level_next_ := adapt_same } :=
  ⟨rfl, (desired_level_not_leaf sampleConfig [adapt_refine] sampleParent 3 rfl).1,
   (desired_level_not_leaf sampleConfig [adapt_refine] sampleParent 3 rfl).2.2.1⟩

theorem adapt_end_deleted (cfg : Config) (b : Block) (hdel : b.delete_ = true) :
    adapt_end_ cfg b =
      (b, (if b.index_.is_root then [Event.done_inserting] else []) ++ [Event.destroy]) := by
  unfold adapt_end_
  simp only [hdel, if_true]

theorem adapt_end_kept (cfg : Config) (b : Block) (hdel : b.delete_ = false) :
    (adapt_end_ cfg b).1 =
      { b with face_level_last_ := fun _ => 0,
               sync_coarsen_ := { stop := NC b.rank, count := 0 },
               adapt_step_ := (adapt_end_ cfg b).1.adapt_step_ } := by
  unfold adapt_end_
  simp only [hdel, Bool.false_eq_true, if_false, Sync.set_stop, Sync.reset]
  split_ifs <;> rfl

/-- C22 (end of the phase). On a block marked `delete_`, `adapt_end_` destroys
the block and returns: no field is changed and there is no `control_sync`.
Otherwise every entry of `face_level_last_` becomes 0 and `sync_coarsen_`
expects `NC(rank) = 2^rank` acknowledgements with a count of 0, while
`level_next_`, `is_leaf_`, `children_` and the four face-level maps keep their
values (of all fields only `adapt_step_` may change besides); a message with
`lvl_new >= 0` on any `(ic, f)` key then passes the filter of
`p_adapt_recv_level`, which records it. -/
theorem adapt_end_frame (T : Topology) (cfg : Config) (b : Block) :
    (b.delete_ = true →
      (adapt_end_ cfg b).1 = b ∧
      (adapt_end_ cfg b).2.countP Event.isDestroy = 1 ∧
      (adapt_end_ cfg b).2.countP Event.isControlSync = 0) ∧
    (b.delete_ = false →
      (adapt_end_ cfg b).2.countP Event.isDestroy = 0 ∧
      (∀ k, (adapt_end_ cfg b).1.face_level_last_ k = 0) ∧
      (adapt_end_ cfg b).1.sync_coarsen_ = { stop := 2 ^ b.rank.toNat, count := 0 } ∧
      NC b.rank = 2 ^ b.rank.toNat ∧
      (adapt_end_ cfg b).1 =
        { b with face_level_last_ := fun _ => 0,
                 sync_coarsen_ := { stop := NC b.rank, count := 0 },
                 adapt_step_ := (adapt_end_ cfg b).1.adapt_step_ } ∧
      (adapt_end_ cfg b).1.level_next_ = b.level_next_ ∧
      (adapt_end_ cfg b).1.is_leaf_ = b.is_leaf_ ∧
      (adapt_end_ cfg b).1.children_ = b.children_ ∧
      (adapt_end_ cfg b).1.face_level_curr_ = b.face_level_curr_ ∧
      (adapt_end_ cfg b).1.face_level_next_ = b.face_level_next_ ∧
      (adapt_end_ cfg b).1.child_face_level_curr_ = b.child_face_level_curr_ ∧
      (adapt_end_ cfg b).1.child_face_level_next_ = b.child_face_level_next_ ∧
      (∀ m : Msg, m.level_face_new ≥ 0 →
        ¬ ((adapt_end_ cfg b).1.face_level_last_ (m.ic3, m.if3) > m.level_face_new) ∧
        (p_adapt_recv_level T (adapt_end_ cfg b).1 m).1.face_level_last_ (m.ic3, m.if3)
          = m.level_face_new)) := by
  constructor
  · intro hdel
    rw [adapt_end_deleted cfg b hdel]
    refine ⟨rfl, ?_, ?_⟩ <;> split_ifs <;>
      simp [List.countP_cons, Event.isDestroy, Event.isControlSync]
  · intro hdel
    have hk := adapt_end_kept cfg b hdel
    have hlast : ∀ k, (adapt_end_ cfg b).1.face_level_last_ k = 0 := by
      intro k; rw [hk]
    refine ⟨?_, hlast, by rw [hk]; rfl, rfl, hk, by rw [hk], by rw [hk], by rw [hk],
      by rw [hk], by rw [hk], by rw [hk], by rw [hk], ?_⟩
    · unfold adapt_end_
      simp only [hdel, Bool.false_eq_true, if_false]
      split_ifs <;> simp [List.countP_cons, Event.isDestroy]
    · intro m hm
      have hns : ¬ ((adapt_end_ cfg b).1.face_level_last_ (m.ic3, m.if3) > m.level_face_new) := by
        rw [hlast]; omega
      refine ⟨hns, ?_⟩
      cases hleaf : (adapt_end_ cfg b).1.is_leaf_
      · rw [recv_level_nonleaf T _ m hns hleaf]
        simp [face_level_last_update]
      · obtain ⟨KF, KC, h⟩ := recv_level_leaf_eq T (adapt_end_ cfg b).1.index_
          (adapt_end_ cfg b).1.rank m
        rw [h _ rfl rfl hleaf hns]
        simp [paint, face_level_last_update]

/-! ## The messages to the next-coarser level -/

theorem parent_face_fixed_iff (f ic : Int3) :
    (parent_face_ f ic).1 = f ↔ noSiblingComponent f ic = true := by
  obtain ⟨f0, f1, f2⟩ := f
  obtain ⟨c0, c1, c2⟩ := ic
  have key : ∀ x c : Int,
      ((if x = -1 ∧ c = 1 then (0 : Int) else if x = 1 ∧ c = 0 then 0 else x) = x ↔
        pointsAtSibling x c = false) := by
    intro x c
    unfold pointsAtSibling
    simp only [decide_eq_false_iff_not, not_or]
    split_ifs with h1 h2
    · constructor
      · intro h; omega
      · intro h; exact absurd h1 h.2
    · constructor
      · intro h; omega
      · intro h; exact absurd h2 h.1
    · constructor
      · intro _; exact ⟨h2, h1⟩
      · intro _; rfl
  simp only [parent_face_, noSiblingComponent, Prod.mk.injEq, key, Bool.and_eq_true,
    Bool.not_eq_true', and_assoc]

theorem coarse_face_filter (T : Topology) (b : Block) (of3 : Int3) :
    (let level := b.level
     let ic3 : Int3 := (0, 0, 0)
     let level_face := b.face_level of3
     if level_face = level then
       [Event.put_level (T.neighbor_ b.index_ of3) ⟨b.index_, ic3, of3, level, b.level_next_⟩]
     else if level_face = level - 1 then
       let ic3 := b.index_.child level
       let op3 := (parent_face_ of3 ic3).1
       if op3.1 = of3.1 ∧ op3.2.1 = of3.2.1 ∧ op3.2.2 = of3.2.2 then
         let index_uncle := (T.neighbor_ b.index_ of3).index_parent
         [Event.put_level index_uncle ⟨b.index_, ic3, of3, level, b.level_next_⟩]
       else []
     else if level_face = level + 1 then
       let if3 := neg3 of3
       (T.ItChild b.rank (some if3)).map (fun ic3 =>
         let index_nibling := (T.neighbor_ b.index_ of3).index_child ic3
         Event.put_level index_nibling ⟨b.index_, ic3, of3, level, b.level_next_⟩)
     else [Event.warning_level_jump level level_face]).filter (Event.isCoarseMsg b)
    = if (decide (b.face_level of3 = b.level - 1) &&
          noSiblingComponent of3 (b.index_.child b.level)) = true then
        [Event.put_level (T.neighbor_ b.index_ of3).index_parent
          ⟨b.index_, b.index_.child b.level, of3, b.level, b.level_next_⟩]
      else [] := by
  have hop : ∀ x y : Int3, (x.1 = y.1 ∧ x.2.1 = y.2.1 ∧ x.2.2 = y.2.2) ↔ x = y := by
    intro x y
    constructor
    · intro h; exact Prod.ext h.1 (Prod.ext h.2.1 h.2.2)
    · intro h; subst h; exact ⟨rfl, rfl, rfl⟩
  simp only [hop, parent_face_fixed_iff, Bool.and_eq_true, decide_eq_true_eq]
  by_cases h1 : b.face_level of3 = b.level
  · have h2 : ¬ b.face_level of3 = b.level - 1 := by omega
    have hc : ¬ (b.face_level of3 = b.level - 1 ∧
        noSiblingComponent of3 (b.index_.child b.level) = true) := fun h => h2 h.1
    simp only [if_pos h1, if_neg hc]
    simp [Event.isCoarseMsg, h2]
  by_cases h2 : b.face_level of3 = b.level - 1
  · by_cases h3 : noSiblingComponent of3 (b.index_.child b.level) = true
    · simp only [if_neg h1, if_pos h2, if_pos h3, if_pos (And.intro h2 h3)]
      simp [Event.isCoarseMsg, h2]
    · have hc : ¬ (b.face_level of3 = b.level - 1 ∧
          noSiblingComponent of3 (b.index_.child b.level) = true) := fun h => h3 h.2
      simp only [if_neg h1, if_pos h2, if_neg h3, if_neg hc]
      rfl
  have hc : ¬ (b.face_level of3 = b.level - 1 ∧
      noSiblingComponent of3 (b.index_.child b.level) = true) := fun h => h2 h.1
  by_cases h3 : b.face_level of3 = b.level + 1
  · simp only [if_neg h1, if_neg h2, if_pos h3, if_neg hc]
    rw [List.filter_eq_nil_iff]
    intro e he
    simp only [List.mem_map] at he
    obtain ⟨ic, -, rfl⟩ := he
    simp [Event.isCoarseMsg, h2]
  · simp only [if_neg h1, if_neg h2, if_neg h3, if_neg hc]
    rfl

theorem coarse_messages_eq (T : Topology) (b : Block) (hleaf : b.is_leaf = true) :
    (adapt_send_level T b).filter (Event.isCoarseMsg b) =
      ((T.it_neighbor 0 b.index_).filter (fun f =>
        decide (b.face_level f = b.level - 1) &&
          noSiblingComponent f (b.index_.child b.level))).map (fun f =>
        Event.put_level (T.neighbor_ b.index_ f).index_parent
          ⟨b.index_, b.index_.child b.level, f, b.level, b.level_next_⟩) := by
  simp only [adapt_send_level, hleaf, Bool.not_true, Bool.false_eq_true, if_false]
  induction T.it_neighbor 0 b.index_ with
  | nil => rfl
  | cons f fs ih =>
    simp only [List.flatMap_cons, List.filter_append]
    rw [ih, coarse_face_filter T b f]
    by_cases hf : (decide (b.face_level f = b.level - 1) &&
        noSiblingComponent f (b.index_.child b.level)) = true
    · rw [if_pos hf]
      simp only [List.filter_cons, hf, if_true, List.map_cons, List.singleton_append]
    · rw [if_neg hf]
      simp only [List.filter_cons, hf, if_false, List.nil_append, Bool.false_eq_true]

theorem noSiblingComponent_iff (f ic : Int3) :
    noSiblingComponent f ic = true ↔
      (¬ (f.1 = 1 ∧ ic.1 = 0) ∧ ¬ (f.1 = -1 ∧ ic.1 = 1)) ∧
      (¬ (f.2.1 = 1 ∧ ic.2.1 = 0) ∧ ¬ (f.2.1 = -1 ∧ ic.2.1 = 1)) ∧
      (¬ (f.2.2 = 1 ∧ ic.2.2 = 0) ∧ ¬ (f.2.2 = -1 ∧ ic.2.2 = 1)) := by
  simp only [noSiblingComponent, pointsAtSibling, Bool.and_eq_true, Bool.not_eq_true',
    decide_eq_false_iff_not, not_or, and_assoc]

/-- C21 (SEND-COARSE). The messages a leaf sends across faces where it sees
the next-coarser level are exactly one message to the uncle
`neighbor(f).index_parent()`, with the leaf's own child key `ic`, for each such
face `f` of the neighbour iterator no component of which points at a sibling
(neither `f[k] = +1` with `ic[k] = 0` nor `f[k] = -1` with `ic[k] = 1`), and
none for the other such faces.  Every one of these messages carries a face
that `parent_face_` maps to itself, and when the iterator yields no face twice
no two of them carry the same `(ic, f)` key. -/
theorem send_coarse_messages (T : Topology) (b : Block) (hleaf : b.is_leaf = true) :
    (adapt_send_level T b).filter (Event.isCoarseMsg b) =
      ((T.it_neighbor 0 b.index_).filter (fun f =>
        decide (b.face_level f = b.level - 1) &&
          noSiblingComponent f (b.index_.child b.level))).map (fun f =>
        Event.put_level (T.neighbor_ b.index_ f).index_parent
          ⟨b.index_, b.index_.child b.level, f, b.level, b.level_next_⟩) ∧
    (∀ f ∈ T.it_neighbor 0 b.index_, b.face_level f = b.level - 1 →
      ((∃ recv m, Event.put_level recv m ∈ adapt_send_level T b ∧ m.if3 = f) ↔
        ((¬ (f.1 = 1 ∧ (b.index_.child b.level).1 = 0) ∧
            ¬ (f.1 = -1 ∧ (b.index_.child b.level).1 = 1)) ∧
          (¬ (f.2.1 = 1 ∧ (b.index_.child b.level).2.1 = 0) ∧
            ¬ (f.2.1 = -1 ∧ (b.index_.child b.level).2.1 = 1)) ∧
          (¬ (f.2.2 = 1 ∧ (b.index_.child b.level).2.2 = 0) ∧
            ¬ (f.2.2 = -1 ∧ (b.index_.child b.level).2.2 = 1))))) ∧
    (∀ recv m, Event.put_level recv m ∈ (adapt_send_level T b).filter (Event.isCoarseMsg b) →
      recv = (T.neighbor_ b.index_ m.if3).index_parent ∧
      m.ic3 = b.index_.child b.level ∧ (parent_face_ m.if3 m.ic3).1 = m.if3) ∧
    ((T.it_neighbor 0 b.index_).Nodup →
      (((adapt_send_level T b).filter (Event.isCoarseMsg b)).filterMap Event.levelKey).Nodup) := by
  have heq := coarse_messages_eq T b hleaf
  have hmem : ∀ recv m,
      Event.put_level recv m ∈ (adapt_send_level T b).filter (Event.isCoarseMsg b) →
      m.if3 ∈ T.it_neighbor 0 b.index_ ∧ b.face_level m.if3 = b.level - 1 ∧
      noSiblingComponent m.if3 (b.index_.child b.level) = true ∧
      recv = (T.neighbor_ b.index_ m.if3).index_parent ∧
      m.ic3 = b.index_.child b.level := by
    intro recv m h
    rw [heq] at h
    simp only [List.mem_map, List.mem_filter, Bool.and_eq_true, decide_eq_true_eq,
      Event.put_level.injEq] at h
    obtain ⟨f, ⟨hf, hc, hn⟩, hr, rfl⟩ := h
    exact ⟨hf, hc, hn, hr.symm, rfl⟩
  refine ⟨heq, ?_, ?_, ?_⟩
  · intro f hf hc
    rw [← noSiblingComponent_iff]
    constructor
    · rintro ⟨recv, m, hm, rfl⟩
      have : Event.put_level recv m ∈ (adapt_send_level T b).filter (Event.isCoarseMsg b) := by
        rw [List.mem_filter]
        exact ⟨hm, by simp [Event.isCoarseMsg, hc]⟩
      exact (hmem recv m this).2.2.1
    · intro hn
      refine ⟨(T.neighbor_ b.index_ f).index_parent,
        ⟨b.index_, b.index_.child b.level, f, b.level, b.level_next_⟩, ?_, rfl⟩
      have : Event.put_level (T.neighbor_ b.index_ f).index_parent
          ⟨b.index_, b.index_.child b.level, f, b.level, b.level_next_⟩
          ∈ (adapt_send_level T b).filter (Event.isCoarseMsg b) := by
        rw [heq]
        simp only [List.mem_map, List.mem_filter, Bool.and_eq_true, decide_eq_true_eq]
        exact ⟨f, ⟨hf, hc, hn⟩, rfl⟩
      exact (List.mem_filter.mp this).1
  · intro recv m h
    obtain ⟨-, -, hn, hr, hic⟩ := hmem recv m h
    refine ⟨hr, hic, ?_⟩
    rw [hic, parent_face_fixed_iff]
    exact hn
  · intro hnd
    rw [heq, List.filterMap_map]
    have : (Event.levelKey ∘ fun f =>
        Event.put_level (T.neighbor_ b.index_ f).index_parent
          ⟨b.index_, b.index_.child b.level, f, b.level, b.level_next_⟩)
        = fun f => some (b.index_.child b.level, f) := rfl
    rw [this]
    have hmap : (fun f : Int3 => some (b.index_.child b.level, f))
        = some ∘ (fun f : Int3 => (b.index_.child b.level, f)) := rfl
    rw [hmap, List.filterMap_eq_map]
    exact (hnd.filter _).map (fun x y h => (Prod.mk.inj h).2)

/-! ## The initial child face levels -/

theorem foldl_prefix_invariant {α β : Type} (P : List α → β → Prop) (f : β → α → β)
    (hstep : ∀ pre x acc, P pre acc → P (pre ++ [x]) (f acc x)) (l : List α) :
    ∀ (pre : List α) (init : β), P pre init → P (pre ++ l) (l.foldl f init) := by
  induction l with
  | nil => intro pre init h; simpa using h
  | cons x xs ih =>
    intro pre init h
    have := ih (pre ++ [x]) (f init x) (hstep pre x init h)
    simpa using this

theorem child_face_loop (T : Topology) (ic3 : Int3) (level : Int) (index_child : Index)
    (a0 : Block) (step : Block → Int3 → Block)
    (hstep : ∀ (acc : Block) (if3 : Int3), step acc if3 =
      acc.set_child_face_level_curr ic3 if3
        (if (T.neighbor_ index_child if3).index_parent = acc.index_ then level + 1
          else acc.face_level (parent_face_ if3 ic3).1))
    (faces : List Int3) :
    (faces.foldl step a0).index_ = a0.index_ ∧
    (faces.foldl step a0).face_level_curr_ = a0.face_level_curr_ ∧
    (∀ f ∈ faces, (faces.foldl step a0).child_face_level_curr_ (ic3, f) =
      (if (T.neighbor_ index_child f).index_parent = a0.index_ then level + 1
        else a0.face_level (parent_face_ f ic3).1)) ∧
    (∀ k : Int3 × Int3, k.1 ≠ ic3 →
      (faces.foldl step a0).child_face_level_curr_ k = a0.child_face_level_curr_ k) := by
  have h := foldl_prefix_invariant
    (fun (pre : List Int3) (acc : Block) =>
      acc.index_ = a0.index_ ∧ acc.face_level_curr_ = a0.face_level_curr_ ∧
      (∀ f ∈ pre, acc.child_face_level_curr_ (ic3, f) =
        (if (T.neighbor_ index_child f).index_parent = a0.index_ then level + 1
          else a0.face_level (parent_face_ f ic3).1)) ∧
      (∀ k : Int3 × Int3, k.1 ≠ ic3 →
        acc.child_face_level_curr_ k = a0.child_face_level_curr_ k))
    step ?_ faces [] a0 ⟨rfl, rfl, fun f hf => by simp at hf, fun k _ => rfl⟩
  · simpa using h
  · intro pre x acc ⟨h1, h2, h3, h4⟩
    rw [hstep]
    refine ⟨h1, h2, ?_, ?_⟩
    · intro f hf
      by_cases hfx : f = x
      · subst hfx
        simp only [Block.set_child_face_level_curr, if_true, h1, Block.face_level, h2]
      · have hf' : f ∈ pre := by
          simp only [List.mem_append, List.mem_singleton] at hf
          rcases hf with hf | hf
          · exact hf
          · exact absurd hf hfx
        have hne : ¬ ((ic3, f) = (ic3, x)) := fun h => hfx (Prod.mk.inj h).2
        simp only [Block.set_child_face_level_curr, hne, if_false]
        exact h3 f hf'
    · intro k hk
      have hne : ¬ (k = (ic3, x)) := fun h => hk (by rw [h])
      simp only [Block.set_child_face_level_curr, hne, if_false]
      exact h4 k hk

theorem child_loop (T : Topology) (level : Int) (b : Block)
    (step : Block → Int3 → Block)
    (hstep : ∀ (acc : Block) (ic3 : Int3), step acc ic3 =
      ((T.it_face 0 (acc.index_.index_child ic3) none none).foldl (fun acc' if3 =>
        acc'.set_child_face_level_curr ic3 if3
          (if (T.neighbor_ (acc.index_.index_child ic3) if3).index_parent = acc'.index_
            then level + 1 else acc'.face_level (parent_face_ if3 ic3).1)) acc
        ).set_child_face_level_curr ic3 (0, 0, 0) (level + 1))
    (keys : List Int3) :
    (keys.foldl step b).index_ = b.index_ ∧
    (keys.foldl step b).face_level_curr_ = b.face_level_curr_ ∧
    (∀ ic ∈ keys,
      (∀ f ∈ T.it_face 0 (b.index_.index_child ic) none none, f ≠ (0, 0, 0) →
        (keys.foldl step b).child_face_level_curr_ (ic, f) =
          (if (T.neighbor_ (b.index_.index_child ic) f).index_parent = b.index_ then level + 1
            else b.face_level (parent_face_ f ic).1)) ∧
      (keys.foldl step b).child_face_level_curr_ (ic, (0, 0, 0)) = level + 1) := by
  have h := foldl_prefix_invariant
    (fun (pre : List Int3) (acc : Block) =>
      acc.index_ = b.index_ ∧ acc.face_level_curr_ = b.face_level_curr_ ∧
      (∀ ic ∈ pre,
        (∀ f ∈ T.it_face 0 (b.index_.index_child ic) none none, f ≠ (0, 0, 0) →
          acc.child_face_level_curr_ (ic, f) =
            (if (T.neighbor_ (b.index_.index_child ic) f).index_parent = b.index_
              then level + 1 else b.face_level (parent_face_ f ic).1)) ∧
        acc.child_face_level_curr_ (ic, (0, 0, 0)) = level + 1))
    step ?_ keys [] b ⟨rfl, rfl, fun ic hic => by simp at hic⟩
  · simpa using h
  · intro pre x acc ⟨h1, h2, h3⟩
    obtain ⟨l1, l2, l3, l4⟩ := child_face_loop T x level (acc.index_.index_child x) acc _
      (fun _ _ => rfl) (T.it_face 0 (acc.index_.index_child x) none none)
    rw [hstep]
    generalize List.foldl _ acc _ = A at l1 l2 l3 l4 ⊢
    refine ⟨l1.trans h1, l2.trans h2, ?_⟩
    intro ic hic
    by_cases hx : ic = x
    · subst hx
      constructor
      · intro f hf hf0
        have hne : ¬ ((ic, f) = (ic, ((0, 0, 0) : Int3))) := fun h => hf0 (Prod.mk.inj h).2
        simp only [Block.set_child_face_level_curr, hne, if_false]
        rw [← h1] at hf
        rw [l3 f hf, h1]
        simp only [Block.face_level, h2]
      · simp only [Block.set_child_face_level_curr, if_true]
    · have hic' : ic ∈ pre := by
        simp only [List.mem_append, List.mem_singleton] at hic
        rcases hic with hic | hic
        · exact hic
        · exact absurd hic hx
      obtain ⟨g1, g2⟩ := h3 ic hic'
      constructor
      · intro f hf hf0
        have hne : ¬ ((ic, f) = (x, ((0, 0, 0) : Int3))) := fun h => hx (Prod.mk.inj h).1
        simp only [Block.set_child_face_level_curr, hne, if_false]
        rw [l4 (ic, f) hx]
        exact g1 f hf hf0
      · have hne : ¬ ((ic, ((0, 0, 0) : Int3)) = (x, ((0, 0, 0) : Int3))) :=
          fun h => hx (Prod.mk.inj h).1
        simp only [Block.set_child_face_level_curr, hne, if_false]
        rw [l4 (ic, (0, 0, 0)) hx]
        exact g2

/-- C23 (initial child face levels). After `initialize_child_face_levels_`, for
every child key `ic` of `ItChild(rank)` and every (nonzero) face `f` of the
child, `child_face_level_curr[(ic, f)]` is `level + 1` when the child's
neighbour across `f` has this block as its parent and
`face_level(parent_face(f, ic))` otherwise; the entry at the zero direction is
`level + 1` for every child; `child_face_level_next` equals
`child_face_level_curr`; the block's own face levels are not changed. -/
theorem initialize_child_face_levels_spec (T : Topology) (b : Block) :
    (∀ ic ∈ T.ItChild b.rank none,
      ∀ f ∈ T.it_face 0 (b.index_.index_child ic) none none, f ≠ (0, 0, 0) →
        (initialize_child_face_levels_ T b).child_face_level_curr_ (ic, f) =
          (if (T.neighbor_ (b.index_.index_child ic) f).index_parent = b.index_
            then b.level + 1 else b.face_level (parent_face_ f ic).1)) ∧
    (∀ ic ∈ T.ItChild b.rank none,
      (initialize_child_face_levels_ T b).child_face_level_curr_ (ic, (0, 0, 0))
        = b.level + 1) ∧
    (initialize_child_face_levels_ T b).child_face_level_next_
      = (initialize_child_face_levels_ T b).child_face_level_curr_ ∧
    (initialize_child_face_levels_ T b).face_level_curr_ = b.face_level_curr_ := by
  obtain ⟨-, h2, h3⟩ := child_loop T b.level b _ (fun _ _ => rfl) (T.ItChild b.rank none)
  refine ⟨fun ic hic f hf hf0 => ?_, fun ic hic => ?_, rfl, ?_⟩
  · exact (h3 ic hic).1 f hf hf0
  · exact (h3 ic hic).2
  · exact h2

/-! ## The theorems of the last three sections at concrete blocks -/

/-- C21 at `sampleFineLeaf`. -/
theorem send_coarse_messages_witness :
    sampleFineLeaf.is_leaf = true ∧
    (adapt_send_level (periodicTopology 2) sampleFineLeaf).filter
        (Event.isCoarseMsg sampleFineLeaf) =
      (((periodicTopology 2).it_neighbor 0 sampleFineLeaf.index_).filter (fun f =>
        decide (sampleFineLeaf.face_level f = sampleFineLeaf.level - 1) &&
          noSiblingComponent f (sampleFineLeaf.index_.child sampleFineLeaf.level))).map
        (fun f =>
          Event.put_level ((periodicTopology 2).neighbor_ sampleFineLeaf.index_ f).index_parent
            ⟨sampleFineLeaf.index_, sampleFineLeaf.index_.child sampleFineLeaf.level, f,
              sampleFineLeaf.level, sampleFineLeaf.level_next_⟩) ∧
    ((periodicTopology 2).it_neighbor 0 sampleFineLeaf.index_).Nodup ∧
    (((adapt_send_level (periodicTopology 2) sampleFineLeaf).filter
      (Event.isCoarseMsg sampleFineLeaf)).filterMap Event.levelKey).Nodup :=
  ⟨rfl, (send_coarse_messages (periodicTopology 2) sampleFineLeaf rfl).1, by decide,
   (send_coarse_messages (periodicTopology 2) sampleFineLeaf rfl).2.2.2 (by decide)⟩

/-- C22 at `sampleParent`, which is not marked for deletion, and a message
with `lvl_new = 2`. -/
theorem adapt_end_frame_witness :
    sampleParent.delete_ = false ∧ sampleMsg.level_face_new ≥ 0 ∧
    (∀ k, (adapt_end_ sampleConfig sampleParent).1.face_level_last_ k = 0) ∧
    ¬ ((adapt_end_ sampleConfig sampleParent).1.face_level_last_ (sampleMsg.ic3, sampleMsg.if3)
      > sampleMsg.level_face_new) :=
  ⟨rfl, by decide,
   ((adapt_end_frame (periodicTopology 2) sampleConfig sampleParent).2 rfl).2.1,
   ((((adapt_end_frame (periodicTopology 2) sampleConfig sampleParent).2 rfl).2.2.2.2.2.2.2.2.2.2.2.2
     sampleMsg (by decide))).1⟩

/-- C23 at `sampleFineLeaf`: across the face `(1,0,0)` of its child `(0,0,0)`
lies the child `(1,0,0)`, across the face `(1,0,0)` of its child `(1,1,0)` the
next-coarser neighbour of the block. -/
theorem initialize_child_face_levels_spec_witness :
    (0, 0, 0) ∈ (periodicTopology 2).ItChild sampleFineLeaf.rank none ∧
    (1, 0, 0) ∈ (periodicTopology 2).it_face 0
      (sampleFineLeaf.index_.index_child (0, 0, 0)) none none ∧
    (initialize_child_face_levels_ (periodicTopology 2) sampleFineLeaf).child_face_level_curr_
        ((0, 0, 0), (1, 0, 0)) =
      (if ((periodicTopology 2).neighbor_ (sampleFineLeaf.index_.index_child (0, 0, 0))
            (1, 0, 0)).index_parent = sampleFineLeaf.index_
        then sampleFineLeaf.level + 1
        else sampleFineLeaf.face_level (parent_face_ (1, 0, 0) (0, 0, 0)).1) ∧
    (initialize_child_face_levels_ (periodicTopology 2) sampleFineLeaf).child_face_level_curr_
        ((0, 0, 0), (1, 0, 0)) = 3 ∧
    (initialize_child_face_levels_ (periodicTopology 2) sampleFineLeaf).child_face_level_curr_
        ((1, 1, 0), (1, 0, 0)) = 1 :=
  ⟨by decide, by decide,
   (initialize_child_face_levels_spec (periodicTopology 2) sampleFineLeaf).1 (0, 0, 0)
     (by decide) (1, 0, 0) (by decide) (by decide),
   by decide, by decide⟩

end Cello
